import Mathlib

/-!
Shallow embedding of the transcript-acquisition pipeline of the
media-transcript-analyzer repository (Deno/TypeScript edge functions), and
proofs checking the natural-language specification against it.

Network I/O is modelled by an explicit environment mapping the URL that the
code would fetch to either a thrown network error or a response (status and
body).  Machine strings are `String` over `List Char`; JavaScript regular
expressions appearing in the source are transcribed as deterministic scanners
with the same matching semantics (leftmost match, lazy or greedy quantifiers
as written, `.` not matching line terminators).
-/

namespace MTA

/-- JavaScript `String.prototype.trim` whitespace class (the characters that
matter for this code base; `trim` strips them from both ends). -/
def jsWs (c : Char) : Bool :=
  c == ' ' || c == '\t' || c == '\n' || c == '\r' || c == Char.ofNat 11 ||
  c == Char.ofNat 12 || c == Char.ofNat 160 || c == Char.ofNat 0xFEFF ||
  c == Char.ofNat 0x2028 || c == Char.ofNat 0x2029

/-- List-level trim used by the embedding of `.trim()`. -/
def jsTrimL (l : List Char) : List Char :=
  ((l.dropWhile jsWs).reverse.dropWhile jsWs).reverse

/-- Embedding of JavaScript `s.trim()`. -/
def jsTrim (s : String) : String :=
  String.mk (jsTrimL s.data)

/-- Embedding of JavaScript `s.includes(pat)` (substring test). -/
def strContainsL (pat : List Char) : List Char → Bool
  | [] => pat.isEmpty
  | c :: rest => pat.isPrefixOf (c :: rest) || strContainsL pat rest

/-- Embedding of JavaScript `s.includes(pat)`. -/
def strContains (s pat : String) : Bool :=
  strContainsL pat.data s.data

/-- Embedding of JavaScript `s.toLowerCase()` (ASCII range, which is all this
code base feeds it). -/
def lowerStr (s : String) : String :=
  String.mk (s.data.map Char.toLower)

/-- Embedding of JavaScript `s.endsWith(suffix)`. -/
def jsEndsWith (s suffix : String) : Bool :=
  suffix.data.reverse.isPrefixOf s.data.reverse

theorem dropWhile_head_false (p : Char → Bool) :
    ∀ (l : List Char) (a : Char) (t : List Char),
      l.dropWhile p = a :: t → p a = false := by
  intro l
  induction l with
  | nil => intro a t h; simp [List.dropWhile] at h
  | cons c cs ih =>
    intro a t h
    rw [List.dropWhile_cons] at h
    by_cases hc : p c = true
    · rw [if_pos hc] at h
      exact ih a t h
    · rw [if_neg hc] at h
      cases h
      simpa using hc

theorem dropWhile_eq_self_of_head (p : Char → Bool) (l : List Char)
    (h : ∀ (a : Char) (t : List Char), l = a :: t → p a = false) :
    l.dropWhile p = l := by
  cases l with
  | nil => simp
  | cons c cs =>
    rw [List.dropWhile_cons, if_neg]
    simp [h c cs rfl]

theorem dropWhile_idem (p : Char → Bool) (l : List Char) :
    (l.dropWhile p).dropWhile p = l.dropWhile p := by
  rcases h : l.dropWhile p with _ | ⟨a, t⟩
  · simp
  · have ha := dropWhile_head_false p l a t h
    rw [List.dropWhile_cons, if_neg]
    simp [ha]

theorem getLast?_dropWhile (p : Char → Bool) :
    ∀ l : List Char, l.dropWhile p ≠ [] →
      (l.dropWhile p).getLast? = l.getLast? := by
  intro l
  induction l with
  | nil => simp
  | cons c cs ih =>
    intro hne
    rw [List.dropWhile_cons] at hne ⊢
    by_cases hc : p c = true
    · rw [if_pos hc] at hne ⊢
      have h2 := ih hne
      rw [h2]
      have hcsne : cs ≠ [] := by
        intro h
        rw [h] at hne
        simp at hne
      cases cs with
      | nil => exact absurd rfl hcsne
      | cons b bs => simp
    · rw [if_neg hc]

theorem jsTrimL_idem (l : List Char) : jsTrimL (jsTrimL l) = jsTrimL l := by
  unfold jsTrimL
  have hstep1 :
      (((l.dropWhile jsWs).reverse.dropWhile jsWs).reverse).dropWhile jsWs =
        ((l.dropWhile jsWs).reverse.dropWhile jsWs).reverse := by
    apply dropWhile_eq_self_of_head
    intro a t h
    have hne : ((l.dropWhile jsWs).reverse.dropWhile jsWs).reverse ≠ [] := by
      rw [h]; simp
    have hd2ne : (l.dropWhile jsWs).reverse.dropWhile jsWs ≠ [] := by
      simpa using hne
    have h1 : (((l.dropWhile jsWs).reverse.dropWhile jsWs).reverse).head? = some a := by
      rw [h]; rfl
    rw [List.head?_reverse] at h1
    rw [getLast?_dropWhile _ _ hd2ne] at h1
    rw [List.getLast?_reverse] at h1
    cases hcase : l.dropWhile jsWs with
    | nil => rw [hcase] at h1; simp at h1
    | cons x xs =>
      have hx := dropWhile_head_false jsWs l x xs hcase
      rw [hcase] at h1
      simp at h1
      rw [← h1]
      exact hx
  rw [hstep1, List.reverse_reverse, dropWhile_idem]

theorem jsTrim_idem (s : String) : jsTrim (jsTrim s) = jsTrim s := by
  unfold jsTrim
  rw [show (String.mk (jsTrimL s.data)).data = jsTrimL s.data from rfl]
  rw [jsTrimL_idem]

/-! ## CaptionXMLParser: `parseTranscriptXML`

Source: src/supabase/functions/youtube-summarize/index.ts lines 105-132 and
the identical copy in src/unnamed/part_001 lines 104-131.

```ts
const textMatches = xml.matchAll(/<text[^>]*>(.*?)<\/text>/g);
let transcript = '';
for (const match of textMatches) {
  const text = match[1]
    .replace(/&amp;/g, '&').replace(/&lt;/g, '<').replace(/&gt;/g, '>')
    .replace(/&quot;/g, '"').replace(/&#39;/g, "'").replace(/&nbsp;/g, ' ')
    .replace(/<[^>]+>/g, '').replace(/\n/g, ' ').trim();
  if (text) { transcript += text + ' '; }
}
return transcript.trim();
```
-/

/-- The characters JavaScript `.` does NOT match (line terminators). -/
def isLineTerm (c : Char) : Bool :=
  c == '\n' || c == '\r' || c == Char.ofNat 0x2028 || c == Char.ofNat 0x2029

/-- Fuelled worker for `replaceAllL`.  Every step consumes at least one
character (when the pattern is nonempty), so fuel equal to the input length
never runs out; the fuel-exhausted branch is unreachable at the call sites
below. -/
def replaceAllF (pat repl : List Char) : Nat → List Char → List Char
  | _, [] => []
  | 0, l => l
  | fuel + 1, c :: rest =>
    if pat ≠ [] ∧ pat.isPrefixOf (c :: rest) then
      repl ++ replaceAllF pat repl fuel ((c :: rest).drop pat.length)
    else
      c :: replaceAllF pat repl fuel rest

/-- Embedding of a global `String.prototype.replace(pat, repl)` for a plain
(non-regex-class) pattern: one left-to-right pass replacing each
non-overlapping occurrence.  Used for the entity-decoding chain. -/
def replaceAllL (pat repl : List Char) (l : List Char) : List Char :=
  replaceAllF pat repl l.length l

/-- Scan to the first `>` and return the remainder after it (the `[^>]*>`
part of the tag regexes: zero or more non-`>` characters then `>`). -/
def toAfterGt : List Char → Option (List Char)
  | [] => none
  | c :: rest => if c = '>' then some rest else toAfterGt rest

theorem toAfterGt_length :
    ∀ (l after : List Char), toAfterGt l = some after → after.length < l.length := by
  intro l
  induction l with
  | nil => intro after h; simp [toAfterGt] at h
  | cons c rest ih =>
    intro after h
    rw [toAfterGt] at h
    by_cases hc : c = '>'
    · rw [if_pos hc] at h
      cases h
      simp
    · rw [if_neg hc] at h
      have := ih _ h
      simp only [List.length_cons]
      omega

/-- One attempt of the nested-tag regex `<[^>]+>` at a position just past a
`<`: a nonempty run of non-`>` characters followed by `>`.  Returns the
remainder after the closing `>`, or `none` when the regex cannot match at this
`<`. -/
def tagEnd : List Char → Option (List Char)
  | [] => none
  | c :: rest => if c = '>' then none else toAfterGt rest

theorem tagEnd_length (rest after : List Char) (h : tagEnd rest = some after) :
    after.length ≤ rest.length := by
  cases rest with
  | nil => simp [tagEnd] at h
  | cons c cs =>
    rw [tagEnd] at h
    by_cases hc : c = '>'
    · rw [if_pos hc] at h; cases h
    · rw [if_neg hc] at h
      have := toAfterGt_length cs after h
      simp only [List.length_cons]
      omega

/-- Fuelled worker for `stripTags`; fuel equal to the input length suffices
because a consumed tag spans at least two characters and an emitted character
consumes one. -/
def stripTagsF : Nat → List Char → List Char
  | _, [] => []
  | 0, l => l
  | fuel + 1, c :: rest =>
    if c = '<' then
      match tagEnd rest with
      | some after => stripTagsF fuel after
      | none => c :: stripTagsF fuel rest
    else
      c :: stripTagsF fuel rest

/-- Embedding of the global replace `/<[^>]+>/g` with the empty string (the
nested-tag-stripping step). -/
def stripTags (l : List Char) : List Char :=
  stripTagsF l.length l

/-- Embedding of `.replace(/\n/g, ' ')`. -/
def newlinesToSpaces (l : List Char) : List Char :=
  l.map (fun c => if c = '\n' then ' ' else c)

/-- The entity-decoding chain in source order: `&amp;` `&lt;` `&gt;` `&quot;`
`&#39;` `&nbsp;`, followed by tag stripping, newline collapapsing and `trim` —
exactly the per-span cleanup of `parseTranscriptXML`. -/
def cleanSpan (cap : List Char) : List Char :=
  let s1 := replaceAllL "&amp;".data "&".data cap
  let s2 := replaceAllL "&lt;".data "<".data s1
  let s3 := replaceAllL "&gt;".data ">".data s2
  let s4 := replaceAllL "&quot;".data "\"".data s3
  let s5 := replaceAllL "&#39;".data [Char.ofNat 39] s4
  let s6 := replaceAllL "&nbsp;".data " ".data s5
  jsTrimL (newlinesToSpaces (stripTags s6))

/-- The lazy capture `(.*?)` of `/<text[^>]*>(.*?)<\/text>/`: consume
characters (none may be a line terminator, since `.` does not match them)
until the literal `</text>` follows; fail at end of input. -/
def captureTo : List Char → List Char → Option (List Char × List Char)
  | [], _ => none
  | c :: rest, acc =>
    if "</text>".data.isPrefixOf (c :: rest) then
      some (acc, (c :: rest).drop 7)
    else if isLineTerm c then none
    else captureTo rest (acc ++ [c])

theorem captureTo_length :
    ∀ (l acc cap after : List Char), captureTo l acc = some (cap, after) →
      after.length < l.length := by
  intro l
  induction l with
  | nil => intro acc cap after h; simp [captureTo] at h
  | cons c rest ih =>
    intro acc cap after h
    rw [captureTo] at h
    by_cases hpre : "</text>".data.isPrefixOf (c :: rest) = true
    · simp only [hpre, if_true] at h
      have hlen : 7 ≤ (c :: rest).length := by
        have := List.IsPrefix.length_le (List.isPrefixOf_iff_prefix.mp hpre)
        simpa using this
      have : after = (c :: rest).drop 7 := by
        cases h; rfl
      subst this
      simp only [List.length_drop]
      simp only [List.length_cons] at hlen ⊢
      omega
    · simp only [hpre, if_false, Bool.false_eq_true] at h
      by_cases hlt : isLineTerm c = true
      · simp [hlt] at h
      · simp only [hlt, if_false, Bool.false_eq_true] at h
        have := ih _ _ _ h
        simp only [List.length_cons]
        omega

/-- One attempt of `/<text[^>]*>(.*?)<\/text>/` at the current position:
literal `<text`, then a (greedy, deterministic) run of non-`>` characters,
then `>`, then the lazy capture.  Returns the capture and the remainder after
the match. -/
def spanAt (l : List Char) : Option (List Char × List Char) :=
  if "<text".data.isPrefixOf l then
    match toAfterGt (l.drop 5) with
    | some rest3 => captureTo rest3 []
    | none => none
  else none

theorem spanAt_length (l cap after : List Char) (h : spanAt l = some (cap, after)) :
    after.length < l.length := by
  unfold spanAt at h
  by_cases hpre : "<text".data.isPrefixOf l = true
  · simp only [hpre, if_true] at h
    rcases hgt : toAfterGt (l.drop 5) with _ | rest3
    · rw [hgt] at h; simp at h
    · rw [hgt] at h
      have h1 := captureTo_length rest3 [] cap after h
      have h2 := toAfterGt_length _ _ hgt
      have h3 : (l.drop 5).length ≤ l.length := by
        simp only [List.length_drop]; omega
      omega
  · simp [hpre] at h

/-- Fuelled worker for `findSpans`; fuel equal to the input length suffices
because a successful match consumes at least the two literal tags and a
failed position advances by one character. -/
def findSpansF : Nat → List Char → List (List Char)
  | _, [] => []
  | 0, _ => []
  | fuel + 1, c :: rest =>
    match spanAt (c :: rest) with
    | some (cap, after) => cap :: findSpansF fuel after
    | none => findSpansF fuel rest

/-- `matchAll(/<text[^>]*>(.*?)<\/text>/g)`: successive non-overlapping
matches, advancing one character when no match starts at the current
position. -/
def findSpans (l : List Char) : List (List Char) :=
  findSpansF l.length l

/-- Embedding of `parseTranscriptXML` (youtube-summarize/index.ts 105-132;
identical copy in src/unnamed/part_001 104-131).  The TypeScript try/catch
around a total computation cannot fire, so the embedding is the plain
computation. -/
def joinSpans (spans : List (List Char)) : List Char :=
  spans.foldl
    (fun acc cap => if cleanSpan cap = [] then acc else acc ++ cleanSpan cap ++ [' '])
    []

def parseTranscriptXML (xml : String) : String :=
  String.mk (jsTrimL (joinSpans (findSpans xml.data)))

/-! ## VideoReferenceResolver: `extractVideoId` and `detectPlatform`

`extractVideoId` (youtube-summarize/index.ts 10-21, identical in
src/unnamed/part_001) tries, over the whole input, first
`/(?:youtube\.com\/watch\?v=|youtu\.be\/)([^&\n?#]+)/` and then
`/youtube\.com\/embed\/([^&\n?#]+)/`, returning the first capture.  The
client-side copy in src/unnamed/part_004 adds a third pattern
`/youtube\.com\/v\/([^&\n?#]+)/` and demands a truthy capture (which the `+`
quantifier guarantees anyway). -/

/-- The capture class `[^&\n?#]` of the id patterns. -/
def idChar (c : Char) : Bool :=
  !(c == '&' || c == '\n' || c == '?' || c == '#')

/-- The capture `([^&\n?#]+)` starting at the current position: a nonempty
greedy run of id characters. -/
def capIdAt (cs : List Char) : Option String :=
  match cs.takeWhile idChar with
  | [] => none
  | run => some (String.mk run)

/-- One attempt of the first (alternation) pattern at the current position. -/
def pat1At (cs : List Char) : Option String :=
  if "youtube.com/watch?v=".data.isPrefixOf cs then capIdAt (cs.drop 20)
  else if "youtu.be/".data.isPrefixOf cs then capIdAt (cs.drop 9)
  else none

/-- One attempt of the `/embed/` pattern at the current position. -/
def pat2At (cs : List Char) : Option String :=
  if "youtube.com/embed/".data.isPrefixOf cs then capIdAt (cs.drop 18)
  else none

/-- One attempt of the `/v/` pattern (client copy only). -/
def pat3At (cs : List Char) : Option String :=
  if "youtube.com/v/".data.isPrefixOf cs then capIdAt (cs.drop 14)
  else none

/-- Regex scanning: try the pattern at every start position, left to right. -/
def scanPat (f : List Char → Option String) : List Char → Option String
  | [] => none
  | c :: rest =>
    match f (c :: rest) with
    | some r => some r
    | none => scanPat f rest

/-- Embedding of `extractVideoId` (youtube-summarize/index.ts 10-21). -/
def extractVideoId (url : String) : Option String :=
  match scanPat pat1At url.data with
  | some i => some i
  | none => scanPat pat2At url.data

/-- Embedding of the client-side `extractVideoId` (src/unnamed/part_004 3-17,
which also tries `/youtube\.com\/v\//`). -/
def extractVideoIdClient (url : String) : Option String :=
  match scanPat pat1At url.data with
  | some i => some i
  | none =>
    match scanPat pat2At url.data with
    | some i => some i
    | none => scanPat pat3At url.data

/-- The slice of the youtube-summarize request handler that resolves the URL
(lines 150-156): a missing id is rejected with the invalid-URL error, the
spec's InvalidReference. -/
def summarizeResolve (url : String) : Except String String :=
  match extractVideoId url with
  | none => Except.error "Invalid YouTube URL format"
  | some i => Except.ok i

/-- Embedding of `detectPlatform` (youtube-generic-url/index.ts 10-21); the
source binds `urlLower` once, written out here at each test. -/
def detectPlatform (url : String) : String :=
  if strContains (lowerStr url) "youtube.com" || strContains (lowerStr url) "youtu.be" then
    "youtube"
  else if strContains (lowerStr url) "vimeo.com" then "vimeo"
  else if strContains (lowerStr url) "tiktok.com" then "tiktok"
  else if strContains (lowerStr url) "instagram.com" then "instagram"
  else if strContains (lowerStr url) "twitter.com" ||
      strContains (lowerStr url) "x.com" then "twitter"
  else if strContains (lowerStr url) "facebook.com" ||
      strContains (lowerStr url) "fb.watch" then "facebook"
  else if strContains (lowerStr url) "dailymotion.com" then "dailymotion"
  else if strContains (lowerStr url) "twitch.tv" then "twitch"
  else "generic"

/-! ## The network environment

Each `fetch` the code performs is resolved through an explicit environment
mapping the fetched URL to either a thrown network error (a rejected promise)
or a response with an HTTP status and a body.  Request method, headers and
body do not influence the model (the code never branches on them). -/

/-- Result of a `fetch`: a thrown error or a settled response. -/
inductive FetchResult where
  | fthrow (msg : String)
  | resp (status : Nat) (body : String)

instance {ε α : Type} [DecidableEq ε] [DecidableEq α] : DecidableEq (Except ε α) := fun a b =>
  match a, b with
  | Except.error e, Except.error f => decidable_of_iff (e = f) (by simp)
  | Except.ok x, Except.ok y => decidable_of_iff (x = y) (by simp)
  | Except.error _, Except.ok _ => isFalse (by simp)
  | Except.ok _, Except.error _ => isFalse (by simp)

/-- The ambient network: URL to outcome. -/
def Env : Type := String → FetchResult

/-- `Response.ok`: status in the 2xx range. -/
def respOk (status : Nat) : Bool :=
  decide (200 ≤ status) && decide (status ≤ 299)

/-! ## JSON values

`JSON.parse` and `response.json()` are embedded by a small recursive-descent
parser over the standard JSON grammar producing this value type.  Numbers are
kept as their raw source text (the code never does arithmetic on them;
truthiness needs only a zero test).  `\uXXXX` escapes are decoded as single
code units without surrogate pairing, which no input in this development
exercises. -/

inductive JsonVal where
  | jnull
  | jbool (b : Bool)
  | jnum (raw : String)
  | jstr (s : String)
  | jarr (elems : List JsonVal)
  | jobj (fields : List (String × JsonVal))

/-- JSON insignificant whitespace. -/
def skipWsJ (l : List Char) : List Char :=
  l.dropWhile (fun c => c == ' ' || c == '\t' || c == '\n' || c == '\r')

/-- Value of one hexadecimal digit, `none` for a non-hex character. -/
def hexDigitVal (c : Char) : Option Nat :=
  if c.isDigit then some (c.toNat - 48)
  else if 'a' ≤ c && c ≤ 'f' then some (c.toNat - 87)
  else if 'A' ≤ c && c ≤ 'F' then some (c.toNat - 55)
  else none

/-- Decode one string body after an opening quote, handling the JSON
escapes. -/
def pStrGo : List Char → List Char → Option (String × List Char)
  | acc, '"' :: rest => some (String.mk acc.reverse, rest)
  | acc, '\\' :: e :: rest =>
    if e = '"' then pStrGo ('"' :: acc) rest
    else if e = '\\' then pStrGo ('\\' :: acc) rest
    else if e = '/' then pStrGo ('/' :: acc) rest
    else if e = 'b' then pStrGo (Char.ofNat 8 :: acc) rest
    else if e = 'f' then pStrGo (Char.ofNat 12 :: acc) rest
    else if e = 'n' then pStrGo ('\n' :: acc) rest
    else if e = 'r' then pStrGo ('\r' :: acc) rest
    else if e = 't' then pStrGo ('\t' :: acc) rest
    else if e = 'u' then
      match rest with
      | h1 :: h2 :: h3 :: h4 :: rest2 =>
        match hexDigitVal h1, hexDigitVal h2, hexDigitVal h3, hexDigitVal h4 with
        | some v1, some v2, some v3, some v4 =>
          pStrGo (Char.ofNat (v1 * 4096 + v2 * 256 + v3 * 16 + v4) :: acc) rest2
        | _, _, _, _ => none
      | _ => none
    else none
  | acc, c :: rest =>
    if c.toNat < 32 then none else pStrGo (c :: acc) rest
  | _, [] => none

/-- Parse a JSON number (strict grammar), returning its raw text. -/
def pNum (cs : List Char) : Option (String × List Char) :=
  let (sign, cs1) :=
    match cs with
    | '-' :: rest => (['-'], rest)
    | _ => (([] : List Char), cs)
  let intPart := cs1.takeWhile Char.isDigit
  if intPart = [] then none
  else if intPart.length > 1 && intPart.headD '0' = '0' then none
  else
    let cs2 := cs1.drop intPart.length
    let (fracPart, cs3) :=
      match cs2 with
      | '.' :: rest =>
        let fd := rest.takeWhile Char.isDigit
        if fd = [] then (none, cs2) else (some ('.' :: fd), rest.drop fd.length)
      | _ => (none, cs2)
    match fracPart, cs3 with
    | none, '.' :: _ => none
    | _, _ =>
      let fp := fracPart.getD []
      let (expPart, cs4) :=
        match cs3 with
        | e :: rest =>
          if e = 'e' || e = 'E' then
            let (es, rest2) :=
              match rest with
              | '+' :: r => ([e, '+'], r)
              | '-' :: r => ([e, '-'], r)
              | _ => ([e], rest)
            let ed := rest2.takeWhile Char.isDigit
            if ed = [] then (none, cs3) else (some (es ++ ed), rest2.drop ed.length)
          else (none, cs3)
        | _ => (none, cs3)
      match expPart, cs4 with
      | none, e :: _ =>
        if e = 'e' || e = 'E' then none
        else some (String.mk (sign ++ intPart ++ fp), cs4)
      | _, _ => some (String.mk (sign ++ intPart ++ fp ++ expPart.getD []), cs4)

mutual

/-- Fuelled JSON value parser.  Every two units of fuel consume at least one
input character, so the call sites pass `2 * length + 4`. -/
def pVal : Nat → List Char → Option (JsonVal × List Char)
  | 0, _ => none
  | fuel + 1, cs =>
    match skipWsJ cs with
    | [] => none
    | c :: rest =>
      if c = 'n' then
        if "ull".data.isPrefixOf rest then some (JsonVal.jnull, rest.drop 3) else none
      else if c = 't' then
        if "rue".data.isPrefixOf rest then some (JsonVal.jbool true, rest.drop 3) else none
      else if c = 'f' then
        if "alse".data.isPrefixOf rest then some (JsonVal.jbool false, rest.drop 4) else none
      else if c = '"' then
        match pStrGo [] rest with
        | some (s, r) => some (JsonVal.jstr s, r)
        | none => none
      else if c = '[' then
        match skipWsJ rest with
        | ']' :: r2 => some (JsonVal.jarr [], r2)
        | r2 =>
          match pElems fuel r2 with
          | some (vs, r3) => some (JsonVal.jarr vs, r3)
          | none => none
      else if c = Char.ofNat 123 then
        match skipWsJ rest with
        | c2 :: r2 =>
          if c2 = Char.ofNat 125 then some (JsonVal.jobj [], r2)
          else
            match pFields fuel (c2 :: r2) with
            | some (fs, r3) => some (JsonVal.jobj fs, r3)
            | none => none
        | [] => none
      else
        match pNum (c :: rest) with
        | some (raw, r) => some (JsonVal.jnum raw, r)
        | none => none

/-- Comma-separated array elements up to the closing bracket. -/
def pElems : Nat → List Char → Option (List JsonVal × List Char)
  | 0, _ => none
  | fuel + 1, cs =>
    match pVal fuel cs with
    | none => none
    | some (v, r) =>
      match skipWsJ r with
      | ',' :: r2 =>
        match pElems fuel r2 with
        | some (vs, r3) => some (v :: vs, r3)
        | none => none
      | ']' :: r2 => some ([v], r2)
      | _ => none

/-- Comma-separated object members up to the closing brace. -/
def pFields : Nat → List Char → Option (List (String × JsonVal) × List Char)
  | 0, _ => none
  | fuel + 1, cs =>
    match skipWsJ cs with
    | '"' :: rest =>
      match pStrGo [] rest with
      | none => none
      | some (k, r) =>
        match skipWsJ r with
        | ':' :: r2 =>
          match pVal fuel r2 with
          | none => none
          | some (v, r3) =>
            match skipWsJ r3 with
            | ',' :: r4 =>
              match pFields fuel r4 with
              | some (fs, r5) => some ((k, v) :: fs, r5)
              | none => none
            | c :: r4 =>
              if c = Char.ofNat 125 then some ([(k, v)], r4) else none
            | [] => none
        | _ => none
    | _ => none

end

/-- Embedding of `JSON.parse` / `response.json()`: the whole input must be one
JSON value plus insignificant whitespace. -/
def jsonParseAny (s : String) : Option JsonVal :=
  match pVal (2 * s.data.length + 4) s.data with
  | some (v, r) => if skipWsJ r = [] then some v else none
  | none => none

/-! ## JavaScript value semantics on parsed JSON -/

/-- The thrown-TypeError message used when the code dereferences a property
of `null`/`undefined` or calls a missing method. -/
def typeErrMsg : String := "TypeError"

/-- The thrown-TypeError message of `fetch` on a non-string URL value. -/
def fetchBadUrlMsg : String := "TypeError: invalid URL"

/-- The SyntaxError thrown by `JSON.parse` / `response.json()` on malformed
input. -/
def jsonSyntaxMsg : String := "SyntaxError: JSON parse error"

/-- Plain property access `v.k` on a value known not to be `null`/`undefined`:
an object looks the key up (missing keys give `undefined`, here `none`); any
other non-null value gives `undefined`. -/
def plainGet (v : JsonVal) (k : String) : Option JsonVal :=
  match v with
  | JsonVal.jobj fs => (fs.find? (fun f => f.1 == k)).map Prod.snd
  | _ => none

/-- Optional-chaining access `o?.k` where `o` is an optional value
(`none` = `undefined`): never throws. -/
def optChainGet (o : Option JsonVal) (k : String) : Option JsonVal :=
  match o with
  | none => none
  | some JsonVal.jnull => none
  | some v => plainGet v k

/-- Whether the raw text of a JSON number denotes zero: no nonzero digit in
the mantissa. -/
def numIsZero (raw : String) : Bool :=
  (raw.data.takeWhile (fun c => !(c == 'e' || c == 'E'))).all
    (fun c => !('1' ≤ c && c ≤ '9'))

/-- JavaScript truthiness of an optional JSON value (`none` = `undefined`). -/
def jsTruthy (o : Option JsonVal) : Bool :=
  match o with
  | none => false
  | some JsonVal.jnull => false
  | some (JsonVal.jbool b) => b
  | some (JsonVal.jnum raw) => !numIsZero raw
  | some (JsonVal.jstr s) => !(s == "")
  | some (JsonVal.jarr _) => true
  | some (JsonVal.jobj _) => true

mutual

/-- JavaScript string coercion `String(v)` of a (truthy) JSON value, used by
the `segment.text || ''` + `join` path of the RapidAPI variant. -/
def jsCoerce : JsonVal → String
  | JsonVal.jnull => "null"
  | JsonVal.jbool true => "true"
  | JsonVal.jbool false => "false"
  | JsonVal.jnum raw => raw
  | JsonVal.jstr s => s
  | JsonVal.jobj _ => "[object Object]"
  | JsonVal.jarr xs => String.intercalate "," (coerceElems xs)

/-- `Array.prototype.toString` coerces `null` elements to the empty string. -/
def coerceElems : List JsonVal → List String
  | [] => []
  | JsonVal.jnull :: vs => "" :: coerceElems vs
  | v :: vs => jsCoerce v :: coerceElems vs

end

/-! ## TranscriptStrategyChain, direct-chain implementation

Source: `getTranscript` of src/supabase/functions/youtube-summarize/index.ts
lines 24-102 (first copy).  Strategies in order: the timed-text endpoint for
the languages en, en-US, en-GB — each attempt wrapped in its own try/catch
that continues on any failure — then a raw page scrape of
`/"captionTracks":(\[.*?\])/`.  The outer try/catch only logs and rethrows,
so it is the identity on outcomes.  Note that the page-scrape fetches are NOT
individually guarded: a rejected fetch there propagates to the caller. -/

def timedTextUrl (videoId lang : String) : String :=
  "https://www.youtube.com/api/timedtext?v=" ++ videoId ++ "&lang=" ++ lang

def watchUrl (videoId : String) : String :=
  "https://www.youtube.com/watch?v=" ++ videoId

/-- The thrown no-captions error of the direct chain (its NoCaptionsAvailable
variant). -/
def noCaptionsMsg : String :=
  "No captions available for this video. Please ensure the video has English captions or auto-generated subtitles enabled."

/-- One timed-text attempt (lines 31-55): any thrown error is swallowed by the
per-language catch; a non-2xx response, a body without `<text`, and an empty
parse all simply yield no result. -/
def tryTimedText (env : Env) (videoId lang : String) : Option String :=
  match env (timedTextUrl videoId lang) with
  | FetchResult.fthrow _ => none
  | FetchResult.resp status xmlText =>
    if respOk status then
      if !(xmlText == "") && strContains xmlText "<text" then
        if !(parseTranscriptXML xmlText == "") then some (parseTranscriptXML xmlText)
        else none
      else none
    else none

/-- The language loop: first success wins. -/
def firstTimedText (env : Env) (videoId : String) : List String → Option String
  | [] => none
  | lang :: rest =>
    match tryTimedText env videoId lang with
    | some t => some t
    | none => firstTimedText env videoId rest

def chainLangs : List String := ["en", "en-US", "en-GB"]

/-- The lazy bracket capture of `/"captionTracks":(\[.*?\])/` after the
literal marker and `[`: minimal run of `.`-matchable characters up to the
first `]`. -/
def ctAfter : List Char → List Char → Option (List Char)
  | [], _ => none
  | c :: rest, acc =>
    if c = ']' then some ('[' :: acc.reverse ++ [']'])
    else if isLineTerm c then none
    else ctAfter rest (c :: acc)

/-- Scan for `/"captionTracks":(\[.*?\])/` over the page, left to right; a
position where the literal matches but no `]` is reachable fails and the scan
resumes one character later. -/
def ctCapture : List Char → Option (List Char)
  | [] => none
  | c :: rest =>
    if ("\"captionTracks\":[".data).isPrefixOf (c :: rest) then
      match ctAfter ((c :: rest).drop 17) [] with
      | some cap => some cap
      | none => ctCapture rest
    else ctCapture rest

/-- `JSON.parse` of the bracket capture.  The capture always starts with `[`,
so a successful parse is necessarily an array; its failure is the thrown
SyntaxError. -/
def jsonParseArr (s : String) : Option (List JsonVal) :=
  match jsonParseAny s with
  | some (JsonVal.jarr xs) => some xs
  | _ => none

/-- `captionTracks.find(track => track.languageCode === 'en' ||
track.languageCode === 'en-US')`; dereferencing a `null` element throws. -/
def findV1Track : List JsonVal → Except String (Option JsonVal)
  | [] => Except.ok none
  | tr :: rest =>
    match tr with
    | JsonVal.jnull => Except.error typeErrMsg
    | _ =>
      match plainGet tr "languageCode" with
      | some (JsonVal.jstr s) =>
        if s == "en" || s == "en-US" then Except.ok (some tr)
        else findV1Track rest
      | _ => findV1Track rest

/-- Lines 82-92 applied to the chosen caption track: dereferencing a `null`
track throws; a non-string `baseUrl` makes `fetch` throw; the caption fetch
has no status check; an empty parse falls through (to the chain's no-captions
error). -/
def v1UseTrack (env : Env) (chosen : JsonVal) : Except String (Option String) :=
  match chosen with
  | JsonVal.jnull => Except.error typeErrMsg
  | _ =>
    match plainGet chosen "baseUrl" with
    | some (JsonVal.jstr captionUrl) =>
      match env captionUrl with
      | FetchResult.fthrow m => Except.error m
      | FetchResult.resp _ captionXml =>
        if !(parseTranscriptXML captionXml == "") then
          Except.ok (some (parseTranscriptXML captionXml))
        else Except.ok none
    | _ => Except.error fetchBadUrlMsg

/-- The scrape body applied to the fetched page HTML (lines 66-94): no status
check is performed on the page response; an absent or empty track array falls
through to the no-captions error; `JSON.parse` failure and `null`
dereferences throw. -/
def scrapeHtml (env : Env) (html : String) : Except String (Option String) :=
  match ctCapture html.data with
  | none => Except.ok none
  | some lit =>
    match jsonParseArr (String.mk lit) with
    | none => Except.error jsonSyntaxMsg
    | some tracks =>
      match tracks with
      | [] => Except.ok none
      | t0 :: ts =>
        match findV1Track (t0 :: ts) with
        | Except.error e => Except.error e
        | Except.ok found => v1UseTrack env (found.getD t0)

/-- The page-scrape strategy (lines 59-94): fetch the watch page — a thrown
network error propagates, the status is never checked — then scrape the
body. -/
def tryScrapeRaw (env : Env) (videoId : String) : Except String (Option String) :=
  match env (watchUrl videoId) with
  | FetchResult.fthrow m => Except.error m
  | FetchResult.resp _ html => scrapeHtml env html

/-- Embedding of the direct-chain `getTranscript`
(youtube-summarize/index.ts 24-102). -/
def getTranscript (env : Env) (videoId : String) : Except String String :=
  match firstTimedText env videoId chainLangs with
  | some t => Except.ok t
  | none =>
    match tryScrapeRaw env videoId with
    | Except.error e => Except.error e
    | Except.ok (some t) => Except.ok t
    | Except.ok none => Except.error noCaptionsMsg

/-! ## TranscriptStrategyChain, structured page-scrape implementation

Source: `getTranscript` of src/unnamed/part_001 lines 24-101: fetch the watch
page (browser user-agent, `Accept-Language: en-US`), require a 2xx status,
match `/var ytInitialPlayerResponse = ({.+?});/`, `JSON.parse` the capture,
descend `captions.playerCaptionsTracklistRenderer.captionTracks`, pick the
first track whose language code starts with `en` (else the first track),
fetch its `baseUrl`, parse, and reject a result shorter than 10
characters. -/

/-- Lazy group of `({.+?});`: after the literal `{`, consume `.`-matchable
characters (at least one) until `};` follows; the capture keeps its braces. -/
def braceCapture : List Char → List Char → Option (List Char)
  | [], _ => none
  | c :: rest, acc =>
    if isLineTerm c then none
    else
      match rest with
      | d :: e :: _ =>
        if d = Char.ofNat 125 && e = ';' then
          some (Char.ofNat 123 :: (c :: acc).reverse ++ [Char.ofNat 125])
        else braceCapture rest (c :: acc)
      | _ => braceCapture rest (c :: acc)

/-- Scan for `/var ytInitialPlayerResponse = ({.+?});/`. -/
def playerCapture : List Char → Option (List Char)
  | [] => none
  | c :: rest =>
    if ("var ytInitialPlayerResponse = ".data ++ [Char.ofNat 123]).isPrefixOf (c :: rest) then
      match braceCapture ((c :: rest).drop 31) [] with
      | some cap => some cap
      | none => playerCapture rest
    else playerCapture rest

def p1NoCapMsg : String :=
  "No captions available for this video. The video may not have subtitles or captions enabled."

def p1ShortMsg : String :=
  "Failed to extract meaningful transcript from captions"

/-- `captionTracks.find(track => track.languageCode?.startsWith('en'))`:
dereferencing a `null` element throws; a missing or null `languageCode` is
just falsy thanks to the optional chain; calling `.startsWith` on a non-string
non-null value throws. -/
def findP1Track : List JsonVal → Except String (Option JsonVal)
  | [] => Except.ok none
  | tr :: rest =>
    match tr with
    | JsonVal.jnull => Except.error typeErrMsg
    | _ =>
      match plainGet tr "languageCode" with
      | none => findP1Track rest
      | some JsonVal.jnull => findP1Track rest
      | some (JsonVal.jstr s) =>
        if "en".data.isPrefixOf s.data then Except.ok (some tr)
        else findP1Track rest
      | some _ => Except.error typeErrMsg

/-- Lines 74-95 of src/unnamed/part_001 applied to the chosen caption track:
an `undefined` or `null` track throws on the `.languageCode` log access; the
caption fetch requires a 2xx status; a parse shorter than 10 characters is
rejected. -/
def p1UseTrack (env : Env) (chosen : Option JsonVal) : Except String String :=
  match chosen with
  | none => Except.error typeErrMsg
  | some JsonVal.jnull => Except.error typeErrMsg
  | some tr =>
    match plainGet tr "baseUrl" with
    | some (JsonVal.jstr captionUrl) =>
      match env captionUrl with
      | FetchResult.fthrow m => Except.error m
      | FetchResult.resp cstatus captionXml =>
        if !respOk cstatus then
          Except.error ("Failed to fetch captions: " ++ toString cstatus)
        else
          if parseTranscriptXML captionXml == "" ||
             (parseTranscriptXML captionXml).length < 10 then
            Except.error p1ShortMsg
          else Except.ok (parseTranscriptXML captionXml)
    | _ => Except.error fetchBadUrlMsg

/-- Embedding of the structured-scrape `getTranscript`
(src/unnamed/part_001 24-101). -/
def getTranscriptP1 (env : Env) (videoId : String) : Except String String :=
  match env (watchUrl videoId) with
  | FetchResult.fthrow m => Except.error m
  | FetchResult.resp status html =>
    if !respOk status then
      Except.error ("Failed to fetch video page: " ++ toString status)
    else
      match playerCapture html.data with
      | none => Except.error "Could not find player response data in video page"
      | some lit =>
        match jsonParseAny (String.mk lit) with
        | none => Except.error "Failed to parse player response JSON"
        | some playerResponse =>
          if !jsTruthy (optChainGet (optChainGet (some playerResponse) "captions")
              "playerCaptionsTracklistRenderer") then Except.error p1NoCapMsg
          else
            match optChainGet (optChainGet (some playerResponse) "captions")
                "playerCaptionsTracklistRenderer" with
            | some cv =>
              if !jsTruthy (plainGet cv "captionTracks") then Except.error p1NoCapMsg
              else
                match plainGet cv "captionTracks" with
                | some (JsonVal.jarr ts) =>
                  match findP1Track ts with
                  | Except.error e => Except.error e
                  | Except.ok (some tr) => p1UseTrack env (some tr)
                  | Except.ok none => p1UseTrack env ts.head?
                | some _ => Except.error typeErrMsg
                | none => Except.error typeErrMsg
            | none => Except.error p1NoCapMsg

/-! ## TranscriptStrategyChain, delegated-API implementation

Source: `getTranscript` of the second copy in
src/supabase/functions/youtube-summarize/index.ts lines 254-304 (RapidAPI):
require the configured key, fetch the transcript endpoint, surface a non-2xx
response as the upstream failure, demand an array `transcript` field, join
the segment texts with spaces, trim, and reject an empty result as
no-captions. -/

def rapidUrl (videoId : String) : String :=
  "https://youtube-transcript3.p.rapidapi.com/api/transcript?videoId=" ++ videoId

/-- The UpstreamServiceError surfaced by the delegated strategy. -/
def rapidFailMsg (status : Nat) : String :=
  "Failed to fetch transcript from RapidAPI: " ++ toString status

def rapidFormatMsg : String := "Invalid transcript format from RapidAPI"

def rapidEmptyMsg : String := "No captions available for this video"

/-- `data.transcript.map(segment => segment.text || '')`: a `null` segment
throws; a falsy `text` contributes the empty string; a truthy non-string is
coerced by the later `join`. -/
def segTexts : List JsonVal → Except String (List String)
  | [] => Except.ok []
  | seg :: rest =>
    match seg with
    | JsonVal.jnull => Except.error typeErrMsg
    | _ =>
      let tf := plainGet seg "text"
      let piece := if jsTruthy tf then jsCoerce (tf.getD JsonVal.jnull) else ""
      match segTexts rest with
      | Except.error e => Except.error e
      | Except.ok ps => Except.ok (piece :: ps)

/-- Embedding of the RapidAPI `getTranscript`
(youtube-summarize/index.ts 254-304, second copy). -/
def getTranscriptRapid (env : Env) (videoId : String) (rapidApiKey : Option String) :
    Except String String :=
  match rapidApiKey with
  | none => Except.error "RAPIDAPI_KEY is not configured"
  | some _ =>
    match env (rapidUrl videoId) with
    | FetchResult.fthrow m => Except.error m
    | FetchResult.resp status body =>
      if !respOk status then Except.error (rapidFailMsg status)
      else
        match jsonParseAny body with
        | none => Except.error jsonSyntaxMsg
        | some data =>
          if !jsTruthy (some data) then Except.error rapidFormatMsg
          else
            if !jsTruthy (plainGet data "transcript") then Except.error rapidFormatMsg
            else
              match plainGet data "transcript" with
              | some (JsonVal.jarr segs) =>
                match segTexts segs with
                | Except.error e => Except.error e
                | Except.ok pieces =>
                  if jsTrim (String.intercalate " " pieces) == "" then
                    Except.error rapidEmptyMsg
                  else Except.ok (jsTrim (String.intercalate " " pieces))
              | _ => Except.error rapidFormatMsg

/-! ## AudioTranscriber, file path

Source: src/supabase/functions/youtube-file-transcribe/index.ts.
`base64ToFile` (lines 70-103) strips a data-URL prefix, decodes with `atob`,
and forces the MIME type `audio/mp4` for any file name ending in `.m4a`
(case-insensitively); the request handler (lines 105-241) validates presence,
conversion, size (25 MiB ceiling) and then type (MIME list or extension
list), and only then calls `transcribeAudio` (lines 11-67), the single
network call of this path. -/

/-- The decoded `File`: name, MIME type and decoded bytes. -/
structure AudioFile where
  name : String
  type : String
  bytes : List Nat
  deriving DecidableEq

/-- ASCII whitespace removed by WHATWG forgiving-base64 (`atob`). -/
def isB64Ws (c : Char) : Bool :=
  c == '\t' || c == '\n' || c == Char.ofNat 12 || c == '\r' || c == ' '

/-- Value of one base64 alphabet character. -/
def b64Index (c : Char) : Option Nat :=
  if 'A' ≤ c && c ≤ 'Z' then some (c.toNat - 65)
  else if 'a' ≤ c && c ≤ 'z' then some (c.toNat - 97 + 26)
  else if '0' ≤ c && c ≤ '9' then some (c.toNat - 48 + 52)
  else if c = '+' then some 62
  else if c = '/' then some 63
  else none

/-- Chunk decoding of forgiving-base64: full chunks of four characters give
three bytes, a trailing pair gives one byte, a trailing triple gives two, a
single leftover character is an error. -/
def atobCore : List Char → Option (List Nat)
  | [] => some []
  | [_] => none
  | [c1, c2] =>
    match b64Index c1, b64Index c2 with
    | some i1, some i2 => some [i1 * 4 + i2 / 16]
    | _, _ => none
  | [c1, c2, c3] =>
    match b64Index c1, b64Index c2, b64Index c3 with
    | some i1, some i2, some i3 =>
      some [i1 * 4 + i2 / 16, (i2 % 16) * 16 + i3 / 4]
    | _, _, _ => none
  | c1 :: c2 :: c3 :: c4 :: rest =>
    match b64Index c1, b64Index c2, b64Index c3, b64Index c4 with
    | some i1, some i2, some i3, some i4 =>
      match atobCore rest with
      | some bs => some ([i1 * 4 + i2 / 16, (i2 % 16) * 16 + i3 / 4,
                          (i3 % 4) * 64 + i4] ++ bs)
      | none => none
    | _, _, _, _ => none

/-- Strip one or two trailing `=` padding characters. -/
def stripPad (l : List Char) : List Char :=
  if l.reverse.take 2 = ['=', '='] then l.dropLast.dropLast
  else if l.reverse.take 1 = ['='] then l.dropLast
  else l

/-- Padding is stripped only when the whitespace-free length is a multiple of
four (WHATWG forgiving-base64 step 2). -/
def atobBody (cleaned : List Char) : List Char :=
  if cleaned.length % 4 = 0 then stripPad cleaned else cleaned

/-- Embedding of `atob` (WHATWG forgiving-base64): remove ASCII whitespace;
when the length is a multiple of four strip up to two trailing `=`; decode,
failing on any character outside the alphabet or a leftover length of one.
The decoded binary string is represented by its byte values. -/
def atobJs (s : String) : Option (List Nat) :=
  if (atobBody (s.data.filter (fun c => !isB64Ws c))).contains '=' then none
  else atobCore (atobBody (s.data.filter (fun c => !isB64Ws c)))

/-- `base64String.split(',')[1]`: the text between the first comma and the
following comma or end. -/
def afterComma (l : List Char) : List Char :=
  ((l.dropWhile (fun c => c ≠ ',')).drop 1).takeWhile (fun c => c ≠ ',')

/-- Embedding of `base64ToFile`
(youtube-file-transcribe/index.ts 70-103): decode, then normalize the MIME
type of `.m4a` files to `audio/mp4`; a failed decode is rethrown as the
conversion error. -/
def base64ToFile (base64String fileName mimeType : String) : Except String AudioFile :=
  match atobJs (String.mk (if strContains base64String "," then
      afterComma base64String.data else base64String.data)) with
  | none => Except.error "Failed to convert base64 to file: InvalidCharacterError"
  | some bytes =>
    Except.ok
      { name := fileName
        type := if jsEndsWith (lowerStr fileName) ".m4a" then "audio/mp4" else mimeType
        bytes := bytes }

def whisperEndpoint : String := "https://api.openai.com/v1/audio/transcriptions"

/-- The error-body sniffing of `transcribeAudio` (lines 41-49). -/
def whisperFriendly (status : Nat) (errorText : String) : String :=
  if strContains errorText "Invalid file format" then
    "Audio format not supported. For M4A files, please ensure they are properly encoded. Try converting to MP3 if issues persist."
  else if strContains errorText "file too large" then
    "File is too large. Maximum size is 25MB."
  else if strContains errorText "duration" then
    "Audio file is too long. Maximum duration is about 3 hours."
  else "Whisper API error: " ++ toString status

/-- Embedding of `transcribeAudio` (youtube-file-transcribe/index.ts 11-67):
the one outbound call of the file path; a missing key throws before it; an
empty or whitespace-only body is the empty-transcription error; the result is
trimmed. -/
def transcribeAudio (env : Env) (openAIApiKey : Option String) (_audioFile : AudioFile) :
    Except String String :=
  match openAIApiKey with
  | none => Except.error "OPENAI_API_KEY is not configured"
  | some _ =>
    match env whisperEndpoint with
    | FetchResult.fthrow m => Except.error m
    | FetchResult.resp status body =>
      if !respOk status then Except.error (whisperFriendly status body)
      else
        if body == "" || (jsTrim body).length = 0 then
          Except.error "No transcript generated from the audio file"
        else Except.ok (jsTrim body)

def supportedTypes : List String :=
  ["audio/mpeg", "audio/wav", "audio/mp4", "video/mp4",
   "video/quicktime", "video/x-msvideo", "video/webm"]

def supportedExtensions : List String :=
  [".mp3", ".wav", ".m4a", ".mp4", ".mov", ".avi", ".webm"]

/-- `fileName.toLowerCase().substring(fileName.lastIndexOf('.'))`: from the
last dot (inclusive); `lastIndexOf` returning `-1` makes `substring` start at
0, i.e. the whole lowercased name. -/
def extensionOf (fileName : String) : String :=
  let lower := lowerStr fileName
  match (fileName.data.reverse.findIdx? (fun c => c == '.')) with
  | none => lower
  | some j => String.mk (lower.data.drop (fileName.data.length - 1 - j))

/-- Embedding of the youtube-file-transcribe request handler
(index.ts 105-241) up to and including the transcription call: presence
check, base64 conversion (its failure is a 400), the 25 MiB size ceiling, the
MIME-or-extension type check, then `transcribeAudio`. -/
def handleFileRequest (env : Env) (openAIApiKey : Option String)
    (fileData fileName mimeType : String) : Except String String :=
  if fileData == "" || fileName == "" || mimeType == "" then
    Except.error "File data, name, and mime type are required"
  else
    match base64ToFile fileData fileName mimeType with
    | Except.error e => Except.error ("File conversion failed: " ++ e)
    | Except.ok audioFile =>
      if audioFile.bytes.length > 25 * 1024 * 1024 then
        Except.error "File size exceeds 25MB limit"
      else
        if !(supportedTypes.contains mimeType ||
             supportedExtensions.contains (extensionOf fileName)) then
          Except.error "Unsupported file type"
        else transcribeAudio env openAIApiKey audioFile

/-! ## AudioTranscriber, URL path

Source: `transcribeFromUrl` of
src/supabase/functions/youtube-generic-url/index.ts lines 113-176: download
the media, require a 2xx status, enforce the 25 MiB ceiling on the downloaded
byte length, call the speech-to-text endpoint, require 2xx there, reject an
empty or whitespace-only transcript, and return the trimmed text.  The
downloaded body's byte length is its UTF-8 size in this model. -/

def transcribeFromUrl (env : Env) (openAIApiKey : Option String)
    (audioUrl _title : String) : Except String String :=
  match env audioUrl with
  | FetchResult.fthrow m => Except.error m
  | FetchResult.resp st body =>
    if !respOk st then Except.error ("Failed to download audio: " ++ toString st)
    else if body.utf8ByteSize > 25 * 1024 * 1024 then
      Except.error "Audio file is too large for transcription (max 25MB)"
    else
      match openAIApiKey with
      | none => Except.error "OPENAI_API_KEY is not configured"
      | some _ =>
        match env whisperEndpoint with
        | FetchResult.fthrow m => Except.error m
        | FetchResult.resp ws wbody =>
          if !respOk ws then Except.error ("Transcription failed: " ++ toString ws)
          else
            if wbody == "" || (jsTrim wbody).length = 0 then
              Except.error "No transcript generated - the video might not contain speech"
            else Except.ok (jsTrim wbody)

/-! ## Helper lemmas -/

theorem string_mk_ne_empty (l : List Char) (h : l ≠ []) : String.mk l ≠ "" := by
  intro heq
  exact h (congrArg String.data heq)

theorem string_ne_empty_of_length (s : String) (h : s.length ≠ 0) : s ≠ "" := by
  intro heq
  rw [heq] at h
  exact h rfl

theorem takeWhile_prop (p : Char → Bool) :
    ∀ (l : List Char) (c : Char), c ∈ l.takeWhile p → p c = true := by
  intro l
  induction l with
  | nil => intro c h; simp at h
  | cons a rest ih =>
    intro c h
    rw [List.takeWhile_cons] at h
    by_cases ha : p a = true
    · rw [if_pos ha] at h
      rcases List.mem_cons.mp h with h1 | h2
      · rw [h1]; exact ha
      · exact ih c h2
    · rw [if_neg ha] at h
      simp at h

theorem capIdAt_ok (cs : List Char) (i : String) (h : capIdAt cs = some i) :
    i ≠ "" ∧ ∀ c ∈ i.data, idChar c = true := by
  unfold capIdAt at h
  cases htw : cs.takeWhile idChar with
  | nil => rw [htw] at h; simp at h
  | cons a t =>
    rw [htw] at h
    have hi : i = String.mk (a :: t) := by
      cases h; rfl
    subst hi
    constructor
    · exact string_mk_ne_empty _ (by simp)
    · intro c hc
      have : c ∈ cs.takeWhile idChar := by rw [htw]; exact hc
      exact takeWhile_prop idChar cs c this

theorem patAt_via_cap (suf : List Char) (i : String)
    (h : pat1At suf = some i ∨ pat2At suf = some i ∨ pat3At suf = some i) :
    ∃ cs, capIdAt cs = some i := by
  rcases h with h | h | h
  · unfold pat1At at h
    by_cases h1 : "youtube.com/watch?v=".data.isPrefixOf suf = true
    · rw [if_pos h1] at h; exact ⟨_, h⟩
    · rw [if_neg h1] at h
      by_cases h2 : "youtu.be/".data.isPrefixOf suf = true
      · rw [if_pos h2] at h; exact ⟨_, h⟩
      · rw [if_neg h2] at h; simp at h
  · unfold pat2At at h
    by_cases h1 : "youtube.com/embed/".data.isPrefixOf suf = true
    · rw [if_pos h1] at h; exact ⟨_, h⟩
    · rw [if_neg h1] at h; simp at h
  · unfold pat3At at h
    by_cases h1 : "youtube.com/v/".data.isPrefixOf suf = true
    · rw [if_pos h1] at h; exact ⟨_, h⟩
    · rw [if_neg h1] at h; simp at h

theorem scanPat_some (f : List Char → Option String) :
    ∀ (l : List Char) (i : String), scanPat f l = some i → ∃ suf, f suf = some i := by
  intro l
  induction l with
  | nil => intro i h; simp [scanPat] at h
  | cons c rest ih =>
    intro i h
    rw [scanPat] at h
    cases hf : f (c :: rest) with
    | some r => rw [hf] at h; cases h; exact ⟨c :: rest, hf⟩
    | none => rw [hf] at h; exact ih i h

theorem extractVideoId_ok (url i : String)
    (h : extractVideoId url = some i ∨ extractVideoIdClient url = some i) :
    ∃ cs, capIdAt cs = some i := by
  rcases h with h | h
  · unfold extractVideoId at h
    cases h1 : scanPat pat1At url.data with
    | some r =>
      rw [h1] at h; cases h
      obtain ⟨suf, hs⟩ := scanPat_some pat1At url.data i h1
      exact patAt_via_cap suf i (Or.inl hs)
    | none =>
      rw [h1] at h
      obtain ⟨suf, hs⟩ := scanPat_some pat2At url.data i h
      exact patAt_via_cap suf i (Or.inr (Or.inl hs))
  · unfold extractVideoIdClient at h
    cases h1 : scanPat pat1At url.data with
    | some r =>
      rw [h1] at h; cases h
      obtain ⟨suf, hs⟩ := scanPat_some pat1At url.data i h1
      exact patAt_via_cap suf i (Or.inl hs)
    | none =>
      rw [h1] at h
      cases h2 : scanPat pat2At url.data with
      | some r =>
        rw [h2] at h; cases h
        obtain ⟨suf, hs⟩ := scanPat_some pat2At url.data i h2
        exact patAt_via_cap suf i (Or.inr (Or.inl hs))
      | none =>
        rw [h2] at h
        obtain ⟨suf, hs⟩ := scanPat_some pat3At url.data i h
        exact patAt_via_cap suf i (Or.inr (Or.inr hs))

theorem firstTimedText_none (env : Env) (vid : String) :
    ∀ langs : List String, (∀ lang ∈ langs, tryTimedText env vid lang = none) →
      firstTimedText env vid langs = none := by
  intro langs
  induction langs with
  | nil => intro _; rfl
  | cons lang rest ih =>
    intro h
    rw [firstTimedText]
    rw [h lang (List.mem_cons_self lang rest)]
    exact ih (fun l hl => h l (List.mem_cons_of_mem lang hl))

theorem tryTimedText_ok_ne (env : Env) (vid lang t : String)
    (h : tryTimedText env vid lang = some t) : t ≠ "" := by
  unfold tryTimedText at h
  split at h
  · exact absurd h (by simp)
  · split at h
    · split at h
      · split at h
        · rename_i hne
          cases h
          intro heq
          rw [heq] at hne
          simp at hne
        · exact absurd h (by simp)
      · exact absurd h (by simp)
    · exact absurd h (by simp)

theorem v1UseTrack_ok_ne (env : Env) (chosen : JsonVal) (t : String)
    (h : v1UseTrack env chosen = Except.ok (some t)) : t ≠ "" := by
  unfold v1UseTrack at h
  repeat' split at h
  all_goals first
  | (rename_i hne
     cases h
     intro heq
     rw [heq] at hne
     simp at hne)
  | (exact absurd h (by simp))

theorem scrapeHtml_ok_ne (env : Env) (html t : String)
    (h : scrapeHtml env html = Except.ok (some t)) : t ≠ "" := by
  unfold scrapeHtml at h
  repeat' split at h
  all_goals first
  | (exact v1UseTrack_ok_ne env _ t h)
  | (exact absurd h (by simp))

theorem getTranscript_ok_ne (env : Env) (vid t : String)
    (h : getTranscript env vid = Except.ok t) : t ≠ "" := by
  unfold getTranscript at h
  cases h1 : firstTimedText env vid chainLangs with
  | some r =>
    rw [h1] at h
    cases h
    have : ∃ lang, tryTimedText env vid lang = some t := by
      revert h1
      show firstTimedText env vid chainLangs = some t → _
      generalize chainLangs = langs
      induction langs with
      | nil => intro h1; simp [firstTimedText] at h1
      | cons lang rest ih =>
        intro h1
        rw [firstTimedText] at h1
        cases h2 : tryTimedText env vid lang with
        | some r2 => rw [h2] at h1; cases h1; exact ⟨lang, h2⟩
        | none => rw [h2] at h1; exact ih h1
    obtain ⟨lang, hl⟩ := this
    exact tryTimedText_ok_ne env vid lang t hl
  | none =>
    rw [h1] at h
    cases h2 : tryScrapeRaw env vid with
    | error e => rw [h2] at h; simp at h
    | ok o =>
      rw [h2] at h
      cases o with
      | some r =>
        cases h
        unfold tryScrapeRaw at h2
        cases h3 : env (watchUrl vid) with
        | fthrow m => rw [h3] at h2; simp at h2
        | resp st html =>
          rw [h3] at h2
          exact scrapeHtml_ok_ne env html t h2
      | none => simp at h

theorem p1UseTrack_ok_len (env : Env) (chosen : Option JsonVal) (t : String)
    (h : p1UseTrack env chosen = Except.ok t) : t ≠ "" ∧ 10 ≤ t.length := by
  unfold p1UseTrack at h
  repeat' split at h
  all_goals first
  | (rename_i hguard
     cases h
     simp only [Bool.or_eq_true, beq_iff_eq, decide_eq_true_eq, not_or] at hguard
     obtain ⟨hg1, hg2⟩ := hguard
     exact ⟨hg1, by omega⟩)
  | (exact absurd h (by simp))

theorem p1_ok_len (env : Env) (vid t : String)
    (h : getTranscriptP1 env vid = Except.ok t) : t ≠ "" ∧ 10 ≤ t.length := by
  unfold getTranscriptP1 at h
  repeat' split at h
  all_goals first
  | (exact p1UseTrack_ok_len env _ t h)
  | (exact absurd h (by simp))

theorem rapid_ok_trim (env : Env) (vid : String) (key : Option String) (t : String)
    (h : getTranscriptRapid env vid key = Except.ok t) : t ≠ "" ∧ jsTrim t = t := by
  unfold getTranscriptRapid at h
  repeat' split at h
  all_goals first
  | (rename_i hne
     cases h
     constructor
     · intro heq
       rw [heq] at hne
       simp at hne
     · exact jsTrim_idem _)
  | (exact absurd h (by simp))

theorem transcribeAudio_ok (env : Env) (key : Option String) (f : AudioFile) (t : String)
    (h : transcribeAudio env key f = Except.ok t) : jsTrim t = t ∧ t ≠ "" := by
  unfold transcribeAudio at h
  repeat' split at h
  all_goals first
  | (rename_i hne
     cases h
     simp only [Bool.or_eq_true, beq_iff_eq, decide_eq_true_eq, not_or] at hne
     refine ⟨jsTrim_idem _, fun heq => hne.2 ?_⟩
     rw [heq]
     rfl)
  | (exact absurd h (by simp))

theorem transcribeFromUrl_ok (env : Env) (key : Option String) (audioUrl title t : String)
    (h : transcribeFromUrl env key audioUrl title = Except.ok t) :
    jsTrim t = t ∧ t ≠ "" := by
  unfold transcribeFromUrl at h
  repeat' split at h
  all_goals first
  | (rename_i hne
     cases h
     simp only [Bool.or_eq_true, beq_iff_eq, decide_eq_true_eq, not_or] at hne
     refine ⟨jsTrim_idem _, fun heq => hne.2 ?_⟩
     rw [heq]
     rfl)
  | (exact absurd h (by simp))

/-! ## Decoded-size lemmas for the 25 MiB witness -/

theorem filter_replicate_eq (p : Char → Bool) (a : Char) (hp : p a = true) :
    ∀ n, (List.replicate n a).filter p = List.replicate n a := by
  intro n
  induction n with
  | zero => rfl
  | succ k ih => simp [List.replicate_succ, List.filter_cons, hp, ih]

theorem contains_replicate_ne (a c : Char) (hne : (c == a) = false) :
    ∀ n, (List.replicate n a).contains c = false := by
  intro n
  induction n with
  | zero => rfl
  | succ k ih =>
    rw [List.replicate_succ]
    show (match c == a with
          | true => true
          | false => List.elem c (List.replicate k a)) = false
    rw [hne]
    exact ih

theorem strContainsL_single_replicate (a c : Char) (hne : (c == a) = false) :
    ∀ n, strContainsL [c] (List.replicate n a) = false := by
  intro n
  induction n with
  | zero => rfl
  | succ k ih =>
    rw [List.replicate_succ, strContainsL]
    simp only [List.isPrefixOf, hne, Bool.false_and, Bool.false_or]
    exact ih

theorem atobCore_repA :
    ∀ k : Nat, ∃ bs, atobCore (List.replicate (4 * k + 2) 'A') = some bs ∧
      bs.length = 3 * k + 1 := by
  intro k
  induction k with
  | zero => exact ⟨[0], by decide, rfl⟩
  | succ k ih =>
    obtain ⟨bs, hbs, hlen⟩ := ih
    refine ⟨[0, 0, 0] ++ bs, ?_, by simp [hlen]; omega⟩
    have hrep : List.replicate (4 * (k + 1) + 2) 'A' =
        'A' :: 'A' :: 'A' :: 'A' :: List.replicate (4 * k + 2) 'A' := by
      rw [show 4 * (k + 1) + 2 = (4 * k + 2) + 1 + 1 + 1 + 1 from by omega]
      simp [List.replicate_succ]
    rw [hrep]
    rw [show atobCore ('A' :: 'A' :: 'A' :: 'A' :: List.replicate (4 * k + 2) 'A') =
        (match b64Index 'A', b64Index 'A', b64Index 'A', b64Index 'A' with
         | some i1, some i2, some i3, some i4 =>
           match atobCore (List.replicate (4 * k + 2) 'A') with
           | some bs2 => some ([i1 * 4 + i2 / 16, (i2 % 16) * 16 + i3 / 4,
                                (i3 % 4) * 64 + i4] ++ bs2)
           | none => none
         | _, _, _, _ => none) from rfl]
    rw [show b64Index 'A' = some 0 from by decide]
    rw [hbs]

def bigN : Nat := 9437184

def bigChunks : Nat := 4 * bigN + 2

/-- A 26.99 MiB (after decoding) base64 payload used as the oversized
request. -/
def bigData : String := String.mk (List.replicate bigChunks 'A')

theorem bigData_atob : ∃ bs, atobJs bigData = some bs ∧ bs.length = 3 * bigN + 1 := by
  obtain ⟨bs, hbs, hlen⟩ := atobCore_repA bigN
  refine ⟨bs, ?_, hlen⟩
  unfold atobJs
  rw [show bigData.data = List.replicate bigChunks 'A' from rfl]
  rw [filter_replicate_eq _ 'A' (by decide)]
  rw [show atobBody (List.replicate bigChunks 'A') = List.replicate bigChunks 'A' from by
    unfold atobBody
    rw [if_neg (by rw [List.length_replicate]; decide)]]
  rw [contains_replicate_ne 'A' '=' (by decide)]
  rw [if_neg (by simp)]
  exact hbs

theorem bigData_ne_empty : bigData ≠ "" := by
  apply string_mk_ne_empty
  intro h
  have := congrArg List.length h
  rw [List.length_replicate] at this
  exact absurd this (by decide)

theorem base64ToFile_eq (s name mime : String) (bs : List Nat)
    (hns : strContains s "," = false)
    (hat : atobJs s = some bs)
    (hm4a : jsEndsWith (lowerStr name) ".m4a" = false) :
    base64ToFile s name mime = Except.ok (AudioFile.mk name mime bs) := by
  unfold base64ToFile
  rw [hns]
  simp only [Bool.false_eq_true, if_false]
  rw [show String.mk s.data = s from rfl, hat, hm4a]
  simp

theorem bigData_file : ∃ bs, base64ToFile bigData "clip.weird" "application/zzz" =
    Except.ok (AudioFile.mk "clip.weird" "application/zzz" bs) ∧
    bs.length = 3 * bigN + 1 := by
  obtain ⟨bs, hat, hlen⟩ := bigData_atob
  exact ⟨bs,
    base64ToFile_eq bigData "clip.weird" "application/zzz" bs
      (strContainsL_single_replicate 'A' ',' (by decide) bigChunks) hat (by decide),
    hlen⟩


/-! ## Claim C1 -/

/-- The environment of the C1 counterexample: the three timed-text requests
return 404 and the watch-page fetch rejects with a network error. -/
def envC1x : Env := fun url =>
  if url = watchUrl "vid" then FetchResult.fthrow "network down"
  else FetchResult.resp 404 ""

/-- C1, counterexample: with every timed-text attempt answering 404 (so every
strategy yields no usable transcript) and the page-scrape fetch throwing a
network error, `getTranscript` surfaces the raw network error verbatim — the
thrown transport failure of the non-final page-scrape strategy is NOT
swallowed, the chain does not proceed, and the failure is neither
NoCaptionsAvailable nor the delegated strategy's UpstreamServiceError. -/
theorem C1_counterexample :
    getTranscript envC1x "vid" = Except.error "network down" ∧
    "network down" ≠ noCaptionsMsg ∧
    ∀ status : Nat, "network down" ≠ rapidFailMsg status := by
  refine ⟨by decide, by decide, ?_⟩
  intro status heq
  have hlen := congrArg String.length heq.symm
  rw [rapidFailMsg, String.length_append] at hlen
  rw [show ("Failed to fetch transcript from RapidAPI: " : String).length = 42 from by decide] at hlen
  rw [show ("network down" : String).length = 12 from by decide] at hlen
  omega

/-- C1 (amended): in the direct chain, if every timed-text attempt yields no
result and the page scrape completes without throwing and yields no usable
transcript, `getTranscript` fails with NoCaptionsAvailable; a non-2xx
response or a thrown network error in a timed-text attempt is swallowed; the
page-scrape ignores the page response status entirely (the body is processed
whatever the status); and in the delegated-API implementation a non-2xx
response surfaces as the UpstreamServiceError
`Failed to fetch transcript from RapidAPI: <status>`.  (Unlike the claim, a
THROWN network error during the page scrape propagates verbatim — see the
counterexample.) -/
theorem C1_chain_error_policy (env : Env) (vid key : String) :
    ((∀ lang ∈ chainLangs, tryTimedText env vid lang = none) →
      tryScrapeRaw env vid = Except.ok none →
      getTranscript env vid = Except.error noCaptionsMsg)
    ∧ (∀ lang status body, env (timedTextUrl vid lang) = FetchResult.resp status body →
        respOk status = false → tryTimedText env vid lang = none)
    ∧ (∀ lang msg, env (timedTextUrl vid lang) = FetchResult.fthrow msg →
        tryTimedText env vid lang = none)
    ∧ (∀ status html, env (watchUrl vid) = FetchResult.resp status html →
        tryScrapeRaw env vid = scrapeHtml env html)
    ∧ (∀ status body, env (rapidUrl vid) = FetchResult.resp status body →
        respOk status = false →
        getTranscriptRapid env vid (some key) = Except.error (rapidFailMsg status)) := by
  refine ⟨?_, ?_, ?_, ?_, ?_⟩
  · intro h1 h2
    unfold getTranscript
    rw [firstTimedText_none env vid chainLangs h1, h2]
  · intro lang status body henv hok
    simp [tryTimedText, henv, hok]
  · intro lang msg henv
    simp [tryTimedText, henv]
  · intro status html henv
    simp [tryScrapeRaw, henv]
  · intro status body henv hok
    simp [getTranscriptRapid, henv, hok]

/-- The all-failing environment of the C1 witness: every URL answers 404 with
an empty body. -/
def envC1w : Env := fun _ => FetchResult.resp 404 ""

/-- C1, witness: at the all-404 environment the direct chain fails with
NoCaptionsAvailable and the delegated strategy surfaces its upstream
error. -/
theorem C1_witness :
    getTranscript envC1w "vid" = Except.error noCaptionsMsg ∧
    getTranscriptRapid envC1w "vid" (some "k") = Except.error (rapidFailMsg 404) := by
  have h := C1_chain_error_policy envC1w "vid" "k"
  exact ⟨h.1 (by decide) (by decide), h.2.2.2.2 404 "" rfl (by decide)⟩

/-! ## Claim C2 -/

/-- Environment of the C2 counterexample: the very first timed-text request
already returns a parseable but short caption document. -/
def envC2x : Env := fun url =>
  if url = timedTextUrl "vid" "en" then FetchResult.resp 200 "<text>hi</text>"
  else FetchResult.resp 404 ""

/-- C2, counterexample: the direct timed-text strategy succeeds with the
two-character transcript "hi", so its success predicate is NOT
"length strictly greater than 10 after trim" — a result failing that
predicate does not trigger the next strategy. -/
theorem C2_counterexample :
    getTranscript envC2x "vid" = Except.ok "hi" ∧
    ¬ 10 < ("hi" : String).length := by
  exact ⟨by decide, by decide⟩

/-- C2 (amended): the success predicates actually used differ per
implementation — the direct chain (timed-text and raw page-scrape
strategies) accepts any nonempty parsed text; the structured page-scrape
requires parsed length at least 10 (not strictly greater than 10); the
delegated-API strategy requires the joined, trimmed text to be nonempty. -/
theorem C2_success_predicates (env : Env) (vid key : String) :
    (∀ t, getTranscript env vid = Except.ok t → t ≠ "")
    ∧ (∀ t, getTranscriptP1 env vid = Except.ok t → t ≠ "" ∧ 10 ≤ t.length)
    ∧ (∀ t, getTranscriptRapid env vid (some key) = Except.ok t →
        t ≠ "" ∧ jsTrim t = t) :=
  ⟨fun t h => getTranscript_ok_ne env vid t h,
   fun t h => p1_ok_len env vid t h,
   fun t h => rapid_ok_trim env vid (some key) t h⟩

/-- The watch page served by the C2 witness environment, carrying an embedded
player response with one English caption track. -/
def p1PageHtml : String :=
  "junk var ytInitialPlayerResponse = \x7b\"captions\":\x7b\"playerCaptionsTracklistRenderer\":\x7b\"captionTracks\":[\x7b\"languageCode\":\"en\",\"baseUrl\":\"CAPURL\"\x7d]\x7d\x7d\x7d; more"

/-- The delegated-API response body of the C2 witness environment. -/
def rapidBody : String :=
  "\x7b\"transcript\":[\x7b\"text\":\"hi\"\x7d,\x7b\"text\":\"there\"\x7d]\x7d"

/-- Environment of the C2 witness: all three implementations can succeed. -/
def envC2w : Env := fun url =>
  if url = timedTextUrl "vid" "en" then FetchResult.resp 200 "<text>hello world</text>"
  else if url = watchUrl "vid" then FetchResult.resp 200 p1PageHtml
  else if url = "CAPURL" then FetchResult.resp 200 "<text>hello world okay</text>"
  else if url = rapidUrl "vid" then FetchResult.resp 200 rapidBody
  else FetchResult.resp 404 ""

/-- C2, witness: concrete successful runs of the three implementations
satisfy the amended predicates. -/
theorem C2_witness :
    (("hello world" : String) ≠ "")
    ∧ (("hello world okay" : String) ≠ "" ∧ 10 ≤ ("hello world okay" : String).length)
    ∧ (("hi there" : String) ≠ "" ∧ jsTrim "hi there" = "hi there") := by
  have h := C2_success_predicates envC2w "vid" "k"
  exact ⟨h.1 "hello world" (by decide), h.2.1 "hello world okay" (by decide),
         h.2.2 "hi there" (by decide)⟩

/-! ## Claim C3 -/

/-- C3: once the request parses and the base64 payload decodes, an oversized
file (more than 25 MiB of decoded bytes) is rejected with the FileTooLarge
error for EVERY environment and key — that is, before any network call and
regardless of the MIME type or extension — while a within-limit file of an
unsupported type is rejected with UnsupportedFileType. -/
theorem C3_size_before_type (env : Env) (key : Option String)
    (fileData fileName mimeType : String) (f : AudioFile)
    (h1 : fileData ≠ "") (h2 : fileName ≠ "") (h3 : mimeType ≠ "")
    (hconv : base64ToFile fileData fileName mimeType = Except.ok f) :
    (f.bytes.length > 25 * 1024 * 1024 →
      handleFileRequest env key fileData fileName mimeType =
        Except.error "File size exceeds 25MB limit")
    ∧ (¬ f.bytes.length > 25 * 1024 * 1024 →
       supportedTypes.contains mimeType = false →
       supportedExtensions.contains (extensionOf fileName) = false →
       handleFileRequest env key fileData fileName mimeType =
         Except.error "Unsupported file type") := by
  have hpres : (fileData == "" || fileName == "" || mimeType == "") = false := by
    simp [h1, h2, h3]
  have hred : handleFileRequest env key fileData fileName mimeType =
      (if f.bytes.length > 25 * 1024 * 1024 then
        Except.error "File size exceeds 25MB limit"
      else if !(supportedTypes.contains mimeType ||
          supportedExtensions.contains (extensionOf fileName)) then
        Except.error "Unsupported file type"
      else transcribeAudio env key f) := by
    unfold handleFileRequest
    rw [hpres]
    simp only [Bool.false_eq_true, if_false]
    rw [hconv]
  constructor
  · intro hbig
    rw [hred, if_pos hbig]
  · intro hsm ht he
    rw [hred, if_neg hsm, ht, he]
    simp

/-- Environment of the C3 witness (its responses are never consulted). -/
def envC3w : Env := fun _ => FetchResult.resp 200 "unused"

/-- C3, witness: a 26.99 MiB decoded payload with an unsupported MIME type
and extension is rejected as FileTooLarge (the size check wins), and a tiny
payload of the same unsupported type is rejected as UnsupportedFileType. -/
theorem C3_witness :
    handleFileRequest envC3w none bigData "clip.weird" "application/zzz" =
      Except.error "File size exceeds 25MB limit" ∧
    handleFileRequest envC3w none "QUJD" "notes.txt" "text/plain" =
      Except.error "Unsupported file type" := by
  constructor
  · obtain ⟨bs, hfile, hlen⟩ := bigData_file
    exact (C3_size_before_type envC3w none bigData "clip.weird" "application/zzz"
      (AudioFile.mk "clip.weird" "application/zzz" bs) bigData_ne_empty
      (by decide) (by decide) hfile).1 (by rw [hlen]; decide)
  · exact (C3_size_before_type envC3w none "QUJD" "notes.txt" "text/plain"
      (AudioFile.mk "notes.txt" "text/plain" [65, 66, 67])
      (by decide) (by decide) (by decide) (by decide)).2
      (by decide) (by decide) (by decide)

/-! ## Claim C4 -/

/-- C4: whenever the uploaded file name ends in `.m4a` (case-insensitively),
the `File` object built by `base64ToFile` — the object the handler then
submits to the speech-to-text endpoint — carries the MIME type `audio/mp4`,
whatever MIME type the request declared. -/
theorem C4_m4a_mime (base64String fileName mimeType : String) (f : AudioFile)
    (hm4a : jsEndsWith (lowerStr fileName) ".m4a" = true)
    (hconv : base64ToFile base64String fileName mimeType = Except.ok f) :
    f.type = "audio/mp4" := by
  unfold base64ToFile at hconv
  split at hconv
  · exact absurd hconv (by simp)
  · cases hconv
    simp [hm4a]

/-- C4, witness: `video.m4a` declared as `audio/x-m4a` is normalized to
`audio/mp4`. -/
theorem C4_witness :
    jsEndsWith (lowerStr "video.m4a") ".m4a" = true ∧
    (AudioFile.mk "video.m4a" "audio/mp4" [65, 66, 67]).type = "audio/mp4" :=
  ⟨by decide,
   C4_m4a_mime "QUJD" "video.m4a" "audio/x-m4a"
     (AudioFile.mk "video.m4a" "audio/mp4" [65, 66, 67]) (by decide) (by decide)⟩


/-! ## Claim C5 -/

/-- C5: whenever an id pattern matches, the extracted id is nonempty and the
resolver slice of the handler accepts it; when no pattern matches, resolution
fails with the invalid-URL rejection (InvalidReference); and the platform
detector answers `youtube` exactly for URLs carrying a YouTube marker. -/
theorem C5_resolver (url : String) :
    (∀ i, extractVideoId url = some i → i ≠ "" ∧ summarizeResolve url = Except.ok i)
    ∧ (extractVideoId url = none →
        summarizeResolve url = Except.error "Invalid YouTube URL format")
    ∧ (detectPlatform url = "youtube" ↔
        (strContains (lowerStr url) "youtube.com" ||
         strContains (lowerStr url) "youtu.be") = true) := by
  refine ⟨?_, ?_, ?_⟩
  · intro i h
    obtain ⟨cs, hc⟩ := extractVideoId_ok url i (Or.inl h)
    refine ⟨(capIdAt_ok cs i hc).1, ?_⟩
    unfold summarizeResolve
    rw [h]
  · intro h
    unfold summarizeResolve
    rw [h]
  · constructor
    · intro h
      by_cases hc : (strContains (lowerStr url) "youtube.com" ||
          strContains (lowerStr url) "youtu.be") = true
      · exact hc
      · exfalso
        unfold detectPlatform at h
        rw [if_neg hc] at h
        repeat' split at h
        all_goals simp_all
    · intro hc
      unfold detectPlatform
      rw [if_pos hc]

/-- C5, witness: a short-link URL resolves to platform `youtube` and the
nonempty id `abc123XYZ`; a non-matching URL is rejected as invalid. -/
theorem C5_witness :
    (("abc123XYZ" : String) ≠ "" ∧
      summarizeResolve "https://youtu.be/abc123XYZ" = Except.ok "abc123XYZ")
    ∧ summarizeResolve "https://example.com/clip" =
        Except.error "Invalid YouTube URL format"
    ∧ detectPlatform "https://youtu.be/abc123XYZ" = "youtube" :=
  ⟨(C5_resolver "https://youtu.be/abc123XYZ").1 "abc123XYZ" (by decide),
   (C5_resolver "https://example.com/clip").2.1 (by decide),
   (C5_resolver "https://youtu.be/abc123XYZ").2.2.mpr (by decide)⟩

/-! ## Claim C9 -/

/-- C9: every id either extractor returns is nonempty and free of the URL
delimiters excluded by the capture class `[^&\n?#]+`. -/
theorem C9_capture_class (url i : String)
    (h : extractVideoId url = some i ∨ extractVideoIdClient url = some i) :
    i ≠ "" ∧ ∀ c ∈ i.data, c ≠ '&' ∧ c ≠ '?' ∧ c ≠ '#' ∧ c ≠ '\n' := by
  obtain ⟨cs, hc⟩ := extractVideoId_ok url i h
  obtain ⟨hne, hcls⟩ := capIdAt_ok cs i hc
  refine ⟨hne, fun c hcmem => ?_⟩
  have hcc := hcls c hcmem
  unfold idChar at hcc
  simp only [Bool.not_eq_true', Bool.or_eq_false_iff, beq_eq_false_iff_ne] at hcc
  exact ⟨hcc.1.1.1, hcc.1.2, hcc.2, hcc.1.1.2⟩

/-- C9, witness: the id extracted from a watch URL with trailing query
parameters is nonempty and delimiter-free. -/
theorem C9_witness :
    ("dQw4w9WgXcQ" : String) ≠ "" ∧
    ∀ c ∈ ("dQw4w9WgXcQ" : String).data, c ≠ '&' ∧ c ≠ '?' ∧ c ≠ '#' ∧ c ≠ '\n' :=
  C9_capture_class "https://www.youtube.com/watch?v=dQw4w9WgXcQ&t=1s" "dQw4w9WgXcQ"
    (Or.inl (by decide))

/-! ## Claim C10 -/

/-- C10: every transcript the pipeline returns is trimmed and nonempty — the
caption parser output is its own trim; both audio-transcription paths return
trimmed nonempty text on success; and the caption chain returns nonempty
text on success. -/
theorem C10_trimmed_outputs (xml : String) (env : Env) (key : Option String)
    (f : AudioFile) (audioUrl title vid : String) :
    jsTrim (parseTranscriptXML xml) = parseTranscriptXML xml
    ∧ (∀ t, transcribeAudio env key f = Except.ok t → jsTrim t = t ∧ t ≠ "")
    ∧ (∀ t, transcribeFromUrl env key audioUrl title = Except.ok t →
        jsTrim t = t ∧ t ≠ "")
    ∧ (∀ t, getTranscript env vid = Except.ok t → t ≠ "") := by
  refine ⟨?_, ?_, ?_, ?_⟩
  · show String.mk (jsTrimL (String.mk (jsTrimL _)).data) = _
    rw [show (String.mk (jsTrimL (joinSpans (findSpans xml.data)))).data =
      jsTrimL (joinSpans (findSpans xml.data)) from rfl]
    rw [jsTrimL_idem]
    rfl
  · exact fun t h => transcribeAudio_ok env key f t h
  · exact fun t h => transcribeFromUrl_ok env key audioUrl title t h
  · exact fun t h => getTranscript_ok_ne env vid t h

/-- Environment of the C10 witness: the speech-to-text endpoint answers with
padded text, the media URL serves a small file, and a timed-text request
succeeds. -/
def envC10w : Env := fun url =>
  if url = whisperEndpoint then FetchResult.resp 200 "  hello there "
  else if url = "MEDIA" then FetchResult.resp 200 "songbytes"
  else if url = timedTextUrl "v10" "en" then FetchResult.resp 200 "<text>go now</text>"
  else FetchResult.resp 404 ""

/-- C10, witness: concrete successful runs return trimmed nonempty
transcripts. -/
theorem C10_witness :
    (jsTrim "hello there" = "hello there" ∧ ("hello there" : String) ≠ "")
    ∧ (jsTrim "hello there" = "hello there" ∧ ("hello there" : String) ≠ "")
    ∧ ("go now" : String) ≠ "" := by
  have h := C10_trimmed_outputs "<text>pad</text>" envC10w (some "k")
    (AudioFile.mk "a.mp3" "audio/mpeg" [1, 2, 3]) "MEDIA" "song" "v10"
  exact ⟨h.2.1 "hello there" (by decide), h.2.2.1 "hello there" (by decide),
         h.2.2.2 "go now" (by decide)⟩


/-! ## Claim C7 -/

/-- C7: the exact example document of the specification parses to the exact
expected text. -/
theorem C7_entity_example :
    parseTranscriptXML "<text>A &amp; B</text><text>C</text>" = "A & B C" := by
  decide

/-! ## Claim C8 -/

/-- C8, counterexample: the parser is NOT the identity on already-clean text
("hello" parses to the empty string), and applying it to its own output does
not preserve a nonempty result (parsing "<text>ok</text>" twice yields ""). -/
theorem C8_counterexample :
    parseTranscriptXML "hello" ≠ "hello" ∧
    parseTranscriptXML (parseTranscriptXML "<text>ok</text>") ≠
      parseTranscriptXML "<text>ok</text>" :=
  ⟨by decide, by decide⟩

theorem findSpansF_noText :
    ∀ (fuel : Nat) (l : List Char), strContainsL "<text".data l = false →
      findSpansF fuel l = [] := by
  intro fuel
  induction fuel with
  | zero => intro l _; cases l <;> rfl
  | succ f ih =>
    intro l h
    cases l with
    | nil => rfl
    | cons c rest =>
      rw [strContainsL] at h
      simp only [Bool.or_eq_false_iff] at h
      rw [findSpansF]
      rw [show spanAt (c :: rest) = none from by
        unfold spanAt
        rw [h.1]
        simp]
      exact ih rest h.2

/-- C8 (amended): the parser always returns a string and never raises, but it
is not idempotent on clean text — any input containing no occurrence of
`<text` (already-clean plain text in particular) parses to the empty
string. -/
theorem C8_clean_parses_empty (s : String) (h : strContains s "<text" = false) :
    parseTranscriptXML s = "" := by
  unfold parseTranscriptXML findSpans
  rw [findSpansF_noText s.data.length s.data h]
  rfl

/-- C8, witness: "hello" contains no span and parses to the empty string. -/
theorem C8_witness :
    strContains "hello" "<text" = false ∧ parseTranscriptXML "hello" = "" :=
  ⟨by decide, C8_clean_parses_empty "hello" (by decide)⟩

/-! ## Claim C6 -/

/-- C6, counterexample: in the span `x &lt;b&gt; y` the encoded tag is first
decoded to `<b>` and then removed by the tag-stripping step, so the decoded
angle brackets do NOT appear in the output. -/
theorem C6_counterexample :
    parseTranscriptXML "<text>x &lt;b&gt; y</text>" = "x  y" ∧
    strContains (parseTranscriptXML "<text>x &lt;b&gt; y</text>") "<" = false :=
  ⟨by decide, by decide⟩

/-! Machinery for the amended C6: computing the entity-decoding chain and the
tag-stripping pass over a span containing an abstract encoded tag name. -/

theorem replaceAllF_fuelIrr (pat repl : List Char) :
    ∀ (f fuel : Nat), fuel ≤ f → ∀ l : List Char, l.length ≤ fuel →
      replaceAllF pat repl fuel l = replaceAllF pat repl l.length l := by
  intro f
  induction f with
  | zero =>
    intro fuel hf l hl
    have h0 : fuel = 0 := Nat.le_zero.mp hf
    subst h0
    have hl0 : l = [] := List.eq_nil_of_length_eq_zero (Nat.le_zero.mp hl)
    subst hl0
    rfl
  | succ f ih =>
    intro fuel hf l hl
    cases l with
    | nil => cases fuel <;> rfl
    | cons c rest =>
      cases fuel with
      | zero => simp at hl
      | succ fl =>
        rw [show (c :: rest).length = rest.length + 1 from rfl]
        rw [replaceAllF, replaceAllF]
        have hrest : rest.length ≤ fl := by
          simp only [List.length_cons] at hl
          omega
        by_cases hcond : (pat ≠ [] ∧ pat.isPrefixOf (c :: rest) = true)
        · rw [if_pos hcond, if_pos hcond]
          have hplen : 1 ≤ pat.length := by
            cases hp : pat with
            | nil => exact absurd hp hcond.1
            | cons x xs => simp
          have hdl : ((c :: rest).drop pat.length).length ≤ fl := by
            simp only [List.length_drop, List.length_cons]
            omega
          have hdl2 : ((c :: rest).drop pat.length).length ≤ rest.length := by
            simp only [List.length_drop, List.length_cons]
            omega
          rw [ih fl (by omega) _ hdl,
            ih rest.length (by omega) _ hdl2]
        · rw [if_neg hcond, if_neg hcond]
          rw [ih fl (by omega) rest hrest]

theorem replaceAllL_cons_nomatch (pat repl : List Char) (c : Char) (rest : List Char)
    (h : pat.isPrefixOf (c :: rest) = false) :
    replaceAllL pat repl (c :: rest) = c :: replaceAllL pat repl rest := by
  unfold replaceAllL
  rw [show (c :: rest).length = rest.length + 1 from rfl]
  rw [replaceAllF]
  rw [if_neg (by simp [h])]

theorem isPrefixOf_cons_ne (p z : Char) (ps X : List Char) (h : z ≠ p) :
    (p :: ps).isPrefixOf (z :: X) = false := by
  show ((p == z) && ps.isPrefixOf X) = false
  have hpz : (p == z) = false := by
    simp only [beq_eq_false_iff_ne]
    exact fun hh => h hh.symm
  rw [hpz]
  rfl

theorem replaceAllL_skip_seg (pat repl : List Char) (p : Char) (ps : List Char)
    (hp : pat = p :: ps) :
    ∀ (zs t : List Char), (∀ c ∈ zs, c ≠ p) →
      replaceAllL pat repl (zs ++ t) = zs ++ replaceAllL pat repl t := by
  intro zs
  induction zs with
  | nil => intro t _; simp
  | cons z zrest ih =>
    intro t h
    rw [List.cons_append]
    rw [replaceAllL_cons_nomatch pat repl z (zrest ++ t) (by
      rw [hp]
      exact isPrefixOf_cons_ne p z ps _ (h z (List.mem_cons_self z zrest)))]
    rw [ih t (fun c hc => h c (List.mem_cons_of_mem z hc))]
    rw [List.cons_append]

theorem replaceAllL_match_at (pat repl : List Char) (hne : pat ≠ []) (t : List Char) :
    replaceAllL pat repl (pat ++ t) = repl ++ replaceAllL pat repl t := by
  unfold replaceAllL
  cases hp : pat with
  | nil => exact absurd hp hne
  | cons p ps =>
    rw [List.cons_append]
    rw [show (p :: (ps ++ t)).length = (ps ++ t).length + 1 from rfl]
    rw [replaceAllF]
    rw [if_pos ⟨by simp, by
      show ((p == p) && ps.isPrefixOf (ps ++ t)) = true
      rw [show (p == p) = true from by simp]
      rw [List.isPrefixOf_iff_prefix.mpr (List.prefix_append ps t)]
      rfl⟩]
    rw [show (p :: (ps ++ t)).drop (p :: ps).length = t from by
      rw [show (p :: ps).length = ps.length + 1 from rfl]
      rw [List.drop_succ_cons]
      exact List.drop_left ps t]
    rw [replaceAllF_fuelIrr (p :: ps) repl ((ps ++ t).length) ((ps ++ t).length)
      le_rfl t (by simp)]

theorem stripTagsF_safe :
    ∀ (l : List Char) (f : Nat), (∀ c ∈ l, c ≠ '<') → l.length ≤ f →
      stripTagsF f l = l := by
  intro l
  induction l with
  | nil => intro f _ _; cases f <;> rfl
  | cons c rest ih =>
    intro f h hl
    cases f with
    | zero => simp at hl
    | succ fl =>
      rw [stripTagsF]
      rw [if_neg (h c (List.mem_cons_self c rest))]
      rw [ih fl (fun x hx => h x (List.mem_cons_of_mem c hx))
        (by simp only [List.length_cons] at hl; omega)]

theorem stripTagsF_emit :
    ∀ (a : List Char), (∀ c ∈ a, c ≠ '<') →
      ∀ (f : Nat) (t : List Char), stripTagsF (a.length + f) (a ++ t) = a ++ stripTagsF f t := by
  intro a
  induction a with
  | nil => intro _ f t; simp
  | cons c arest ih =>
    intro h f t
    rw [List.cons_append]
    rw [show (c :: arest).length + f = (arest.length + f) + 1 from by
      simp only [List.length_cons]; omega]
    rw [stripTagsF]
    rw [if_neg (h c (List.mem_cons_self c arest))]
    rw [ih (fun x hx => h x (List.mem_cons_of_mem c hx)) f t]
    rw [List.cons_append]

theorem toAfterGt_through :
    ∀ (a : List Char), (∀ c ∈ a, c ≠ '>') →
      ∀ t, toAfterGt (a ++ '>' :: t) = some t := by
  intro a
  induction a with
  | nil => intro _ t; simp [toAfterGt]
  | cons c arest ih =>
    intro h t
    rw [List.cons_append, toAfterGt]
    rw [if_neg (h c (List.mem_cons_self c arest))]
    exact ih (fun x hx => h x (List.mem_cons_of_mem c hx)) t

theorem captureTo_through :
    ∀ (a : List Char), (∀ c ∈ a, c ≠ '<' ∧ isLineTerm c = false) →
      ∀ (acc t : List Char),
        captureTo (a ++ ("</text>".data ++ t)) acc = some (acc ++ a, t) := by
  intro a
  induction a with
  | nil =>
    intro _ acc t
    rw [List.nil_append]
    show captureTo ('<' :: '/' :: 't' :: 'e' :: 'x' :: 't' :: '>' :: t) acc =
      some (acc ++ [], t)
    rw [captureTo]
    rw [if_pos (show ("</text>".data.isPrefixOf
      ('<' :: '/' :: 't' :: 'e' :: 'x' :: 't' :: '>' :: t)) = true from by
        simp [List.isPrefixOf])]
    simp
  | cons c arest ih =>
    intro h acc t
    rw [List.cons_append, captureTo]
    rw [if_neg (by
      have hc := (h c (List.mem_cons_self c arest)).1
      show ¬(('<' :: "/text>".data).isPrefixOf (c :: (arest ++ ("</text>".data ++ t))) = true)
      rw [isPrefixOf_cons_ne '<' c "/text>".data _ hc]
      simp)]
    rw [if_neg (by
      simp [(h c (List.mem_cons_self c arest)).2])]
    rw [ih (fun x hx => h x (List.mem_cons_of_mem c hx)) (acc ++ [c]) t]
    simp

theorem findSpans_single (mid : List Char)
    (hmid : ∀ c ∈ mid, c ≠ '<' ∧ isLineTerm c = false) :
    findSpans ("<text>".data ++ (mid ++ "</text>".data)) = [mid] := by
  have hspan : spanAt ('<' :: 't' :: 'e' :: 'x' :: 't' :: '>' :: (mid ++ "</text>".data)) =
      some (mid, []) := by
    unfold spanAt
    rw [if_pos (show ("<text".data.isPrefixOf
      ('<' :: 't' :: 'e' :: 'x' :: 't' :: '>' :: (mid ++ "</text>".data))) = true from by
        simp [List.isPrefixOf])]
    rw [show ('<' :: 't' :: 'e' :: 'x' :: 't' :: '>' :: (mid ++ "</text>".data)).drop 5 =
        '>' :: (mid ++ "</text>".data) from rfl]
    rw [toAfterGt, if_pos (show ('>' = '>') from rfl)]
    rw [show mid ++ "</text>".data = mid ++ ("</text>".data ++ []) from by simp]
    show captureTo (mid ++ ("</text>".data ++ [])) [] = some (mid, [])
    rw [captureTo_through mid hmid [] []]
    simp
  unfold findSpans
  show findSpansF
    ('<' :: 't' :: 'e' :: 'x' :: 't' :: '>' :: (mid ++ "</text>".data)).length
    ('<' :: 't' :: 'e' :: 'x' :: 't' :: '>' :: (mid ++ "</text>".data)) = [mid]
  rw [show ('<' :: 't' :: 'e' :: 'x' :: 't' :: '>' :: (mid ++ "</text>".data)).length =
      ('t' :: 'e' :: 'x' :: 't' :: '>' :: (mid ++ "</text>".data)).length + 1 from rfl]
  rw [findSpansF, hspan]
  rfl


/-- `joinSpans` on a single span: the cleaned text followed by a space,
provided the cleaned text is nonempty. -/
theorem joinSpans_single (m l : List Char) (h : cleanSpan m = l) (hl : l ≠ []) :
    joinSpans [m] = l ++ [' '] := by
  unfold joinSpans
  simp only [List.foldl_cons, List.foldl_nil]
  rw [h, if_neg hl]
  rfl

theorem cleanSpan_enc_tag (w : List Char) (hne : w ≠ [])
    (hw : ∀ c ∈ w, c ≠ '&' ∧ c ≠ '<' ∧ c ≠ '>' ∧ isLineTerm c = false) :
    cleanSpan ("x &lt;".data ++ (w ++ "&gt; y".data)) = "x  y".data := by
  have hw1 : ∀ c ∈ w, c ≠ '&' := fun c hc => (hw c hc).1
  have hw3 : ∀ c ∈ w, c ≠ '>' := fun c hc => (hw c hc).2.2.1
  have hamp : replaceAllL "&amp;".data "&".data ("x &lt;".data ++ (w ++ "&gt; y".data)) =
      "x &lt;".data ++ (w ++ "&gt; y".data) := by
    show replaceAllL "&amp;".data "&".data
        (['x', ' '] ++ ('&' :: (['l', 't', ';'] ++ (w ++ "&gt; y".data)))) =
      ['x', ' '] ++ ('&' :: (['l', 't', ';'] ++ (w ++ "&gt; y".data)))
    rw [replaceAllL_skip_seg "&amp;".data "&".data '&' "amp;".data rfl ['x', ' '] _
      (by decide)]
    congr 1
    rw [replaceAllL_cons_nomatch _ _ '&' _ (by simp [List.isPrefixOf, List.cons_append])]
    congr 1
    rw [replaceAllL_skip_seg "&amp;".data "&".data '&' "amp;".data rfl ['l', 't', ';'] _
      (by decide)]
    congr 1
    rw [replaceAllL_skip_seg "&amp;".data "&".data '&' "amp;".data rfl w _ hw1]
    show w ++ replaceAllL "&amp;".data "&".data "&gt; y".data = w ++ "&gt; y".data
    rw [show replaceAllL "&amp;".data "&".data "&gt; y".data = "&gt; y".data from by decide]
  have hlt : replaceAllL "&lt;".data "<".data ("x &lt;".data ++ (w ++ "&gt; y".data)) =
      ['x', ' ', '<'] ++ (w ++ "&gt; y".data) := by
    show replaceAllL "&lt;".data "<".data
        (['x', ' '] ++ ("&lt;".data ++ (w ++ "&gt; y".data))) =
      ['x', ' ', '<'] ++ (w ++ "&gt; y".data)
    rw [replaceAllL_skip_seg "&lt;".data "<".data '&' "lt;".data rfl ['x', ' '] _
      (by decide)]
    rw [replaceAllL_match_at "&lt;".data "<".data (by decide) (w ++ "&gt; y".data)]
    rw [replaceAllL_skip_seg "&lt;".data "<".data '&' "lt;".data rfl w _ hw1]
    rw [show replaceAllL "&lt;".data "<".data "&gt; y".data = "&gt; y".data from by decide]
    rfl
  have hgt : replaceAllL "&gt;".data ">".data (['x', ' ', '<'] ++ (w ++ "&gt; y".data)) =
      ['x', ' ', '<'] ++ (w ++ ['>', ' ', 'y']) := by
    rw [replaceAllL_skip_seg "&gt;".data ">".data '&' "gt;".data rfl ['x', ' ', '<'] _
      (by decide)]
    rw [replaceAllL_skip_seg "&gt;".data ">".data '&' "gt;".data rfl w _ hw1]
    rw [show replaceAllL "&gt;".data ">".data "&gt; y".data = ['>', ' ', 'y'] from by decide]
  have hquot : replaceAllL "&quot;".data "\"".data
      (['x', ' ', '<'] ++ (w ++ ['>', ' ', 'y'])) =
      ['x', ' ', '<'] ++ (w ++ ['>', ' ', 'y']) := by
    rw [replaceAllL_skip_seg "&quot;".data "\"".data '&' "quot;".data rfl ['x', ' ', '<'] _
      (by decide)]
    rw [replaceAllL_skip_seg "&quot;".data "\"".data '&' "quot;".data rfl w _ hw1]
    rw [show replaceAllL "&quot;".data "\"".data ['>', ' ', 'y'] = ['>', ' ', 'y'] from
      by decide]
  have h39 : replaceAllL "&#39;".data [Char.ofNat 39]
      (['x', ' ', '<'] ++ (w ++ ['>', ' ', 'y'])) =
      ['x', ' ', '<'] ++ (w ++ ['>', ' ', 'y']) := by
    rw [replaceAllL_skip_seg "&#39;".data [Char.ofNat 39] '&' "#39;".data rfl
      ['x', ' ', '<'] _ (by decide)]
    rw [replaceAllL_skip_seg "&#39;".data [Char.ofNat 39] '&' "#39;".data rfl w _ hw1]
    rw [show replaceAllL "&#39;".data [Char.ofNat 39] ['>', ' ', 'y'] = ['>', ' ', 'y'] from
      by decide]
  have hnbsp : replaceAllL "&nbsp;".data " ".data
      (['x', ' ', '<'] ++ (w ++ ['>', ' ', 'y'])) =
      ['x', ' ', '<'] ++ (w ++ ['>', ' ', 'y']) := by
    rw [replaceAllL_skip_seg "&nbsp;".data " ".data '&' "nbsp;".data rfl ['x', ' ', '<'] _
      (by decide)]
    rw [replaceAllL_skip_seg "&nbsp;".data " ".data '&' "nbsp;".data rfl w _ hw1]
    rw [show replaceAllL "&nbsp;".data " ".data ['>', ' ', 'y'] = ['>', ' ', 'y'] from
      by decide]
  have hstrip : stripTags (['x', ' ', '<'] ++ (w ++ ['>', ' ', 'y'])) = "x  y".data := by
    cases w with
    | nil => exact absurd rfl hne
    | cons wh wt =>
      unfold stripTags
      rw [show (['x', ' ', '<'] ++ ((wh :: wt) ++ ['>', ' ', 'y'])).length =
          (['x', ' '] : List Char).length + (wt.length + 5) from by
        simp only [List.length_append, List.length_cons, List.length_nil]
        omega]
      rw [show ['x', ' ', '<'] ++ ((wh :: wt) ++ ['>', ' ', 'y']) =
          ['x', ' '] ++ ('<' :: ((wh :: wt) ++ ['>', ' ', 'y'])) from by simp]
      rw [stripTagsF_emit ['x', ' '] (by decide) (wt.length + 5) _]
      rw [show wt.length + 5 = (wt.length + 4) + 1 from by omega]
      rw [stripTagsF]
      rw [if_pos (show ('<' = '<') from rfl)]
      rw [show tagEnd ((wh :: wt) ++ ['>', ' ', 'y']) = some [' ', 'y'] from by
        rw [List.cons_append, tagEnd]
        rw [if_neg (hw3 wh (List.mem_cons_self wh wt))]
        exact toAfterGt_through wt (fun c hc => hw3 c (List.mem_cons_of_mem wh hc)) [' ', 'y']]
      show ['x', ' '] ++ stripTagsF (wt.length + 4) [' ', 'y'] = "x  y".data
      rw [stripTagsF_safe [' ', 'y'] (wt.length + 4) (by decide)
        (by simp only [List.length_cons, List.length_nil]; omega)]
      decide
  show jsTrimL (newlinesToSpaces (stripTags (replaceAllL "&nbsp;".data " ".data
    (replaceAllL "&#39;".data [Char.ofNat 39] (replaceAllL "&quot;".data "\"".data
    (replaceAllL "&gt;".data ">".data (replaceAllL "&lt;".data "<".data
    (replaceAllL "&amp;".data "&".data ("x &lt;".data ++ (w ++ "&gt; y".data)))))))))) =
    "x  y".data
  rw [hamp, hlt, hgt, hquot, h39, hnbsp, hstrip]
  decide

/-- C6 (amended): entity decoding happens before nested-tag stripping, and
therefore encoded angle brackets ARE subsequently treated as markup: for
every span of the form `x &lt;TAG&gt; y` (TAG a nonempty tag name without
`&`, `<`, `>` or line terminators), the decoded `<TAG>` is removed by the
tag-stripping step, so the output is `x  y` and contains no angle
bracket. -/
theorem C6_decode_before_strip (w : List Char) (hne : w ≠ [])
    (hw : ∀ c ∈ w, c ≠ '&' ∧ c ≠ '<' ∧ c ≠ '>' ∧ isLineTerm c = false) :
    parseTranscriptXML
      (String.mk ("<text>x &lt;".data ++ (w ++ "&gt; y</text>".data))) = "x  y"
    ∧ strContains "x  y" "<" = false := by
  refine ⟨?_, by decide⟩
  have hmid : ∀ c ∈ ("x &lt;".data ++ (w ++ "&gt; y".data)),
      c ≠ '<' ∧ isLineTerm c = false := by
    intro c hc
    rw [List.mem_append, List.mem_append] at hc
    rcases hc with hc | hc | hc
    · have h6 : c ∈ ['x', ' ', '&', 'l', 't', ';'] := hc
      simp only [List.mem_cons, List.not_mem_nil, or_false] at h6
      rcases h6 with rfl | rfl | rfl | rfl | rfl | rfl <;> exact ⟨by decide, by decide⟩
    · exact ⟨(hw c hc).2.1, (hw c hc).2.2.2⟩
    · have h6 : c ∈ ['&', 'g', 't', ';', ' ', 'y'] := hc
      simp only [List.mem_cons, List.not_mem_nil, or_false] at h6
      rcases h6 with rfl | rfl | rfl | rfl | rfl | rfl <;> exact ⟨by decide, by decide⟩
  unfold parseTranscriptXML
  rw [show (String.mk ("<text>x &lt;".data ++ (w ++ "&gt; y</text>".data))).data =
      "<text>".data ++ (("x &lt;".data ++ (w ++ "&gt; y".data)) ++ "</text>".data) from by
    show "<text>x &lt;".data ++ (w ++ "&gt; y</text>".data) = _
    rw [show ("x &lt;".data ++ (w ++ "&gt; y".data)) ++ "</text>".data =
        "x &lt;".data ++ (w ++ ("&gt; y".data ++ "</text>".data)) from by
      rw [List.append_assoc, List.append_assoc]]
    rw [show ("&gt; y".data ++ "</text>".data : List Char) = "&gt; y</text>".data from
      by decide]
    rw [show "<text>".data ++ ("x &lt;".data ++ (w ++ "&gt; y</text>".data)) =
        ("<text>".data ++ "x &lt;".data) ++ (w ++ "&gt; y</text>".data) from
      (List.append_assoc _ _ _).symm]
    rw [show ("<text>".data ++ "x &lt;".data : List Char) = "<text>x &lt;".data from
      by decide]]
  rw [findSpans_single _ hmid]
  rw [joinSpans_single _ _ (cleanSpan_enc_tag w hne hw) (by decide)]
  decide

/-- C6, witness: the encoded tag `&lt;b&gt;` is decoded and then stripped. -/
theorem C6_witness :
    parseTranscriptXML
      (String.mk ("<text>x &lt;".data ++ (['b'] ++ "&gt; y</text>".data))) = "x  y"
    ∧ strContains "x  y" "<" = false :=
  C6_decode_before_strip ['b'] (by decide) (by decide)

end MTA
